import Mathlib

/-!
# The BLAKE3 JNI binding (`src/main/native/blake3_jni.cc`)

A shallow embedding of the binding and theorems about it.

* The three file-scope variables `input`, `output`, `hasher` become the fields of
  `blaze_jni.State`, together with the two pieces of memory the entry points touch:
  the C++ free store holding `blake3_hasher` objects and the direct buffers owned by
  the Java caller.
* An entry point that the C++ standard leaves undefined on some input (a null or
  destroyed hasher, an object that was allocated and never initialised, a length that
  exceeds the buffer it is applied to) returns `none` there.  A library call that reads
  the hasher needs a live, initialised object whatever the lengths passed with it; a
  buffer pointer is only dereferenced for a non-zero length.
* `jint` and `jlong` arguments are `Int`; the conversion to `size_t` that happens at
  each library call is `blaze_jni.to_size_t`.
* The BLAKE3 library is external to the binding, and the specification leaves its
  behaviour to the library's own fixed semantics.  Its hasher is modelled by the mode
  chosen at initialisation and the bytes absorbed so far, and its output by an
  arbitrary function `Blake3.xof` of mode, input and output position.
* `input` and `output` are raw addresses.  The memory behind the caller's direct
  buffers is a list of allocations, and an address is an allocation together with a
  byte offset into it, so two direct buffers may be the same memory, overlap in part (a
  buffer and a slice of it) or be apart.  Java arrays are passed by value, and neither
  they nor the free store overlap a direct buffer.
-/

/-- One octet. -/
abbrev Byte := Fin 256

/-! ## The external library -/

/-- Modelled from the spec: the three initialisation modes of the BLAKE3 library
(default, keyed with a fixed-size key, derive-key with a context string).  The
library (`third_party/blake3/src/c/blake3.h`) is not among the sources. -/
inductive Mode where
  | default
  | keyed (key : List Byte)
  | derive_key (context : List Byte)
  deriving DecidableEq

/-- Modelled from the spec: the library's opaque hasher state, abstracted to what
determines its output: the mode selected at initialisation and the input absorbed
since. -/
structure blake3_hasher where
  mode : Mode
  absorbed : List Byte
  deriving DecidableEq

/-- Modelled from the spec: the hash function itself, which is out of scope of the
binding.  `xof m s i` is byte `i` of the library's extended output for input `s`
hashed in mode `m`. -/
structure Blake3 where
  xof : Mode → List Byte → Nat → Byte

/-- Modelled from the spec: the library's fixed key size. -/
def BLAKE3_KEY_LEN : Nat := 32

/-- Modelled from the spec: library `blake3_hasher_init`, the initial default-mode
state. -/
def blake3_hasher_init : blake3_hasher :=
  { mode := Mode.default, absorbed := [] }

/-- Modelled from the spec: library `blake3_hasher_init_keyed`, which reads
`BLAKE3_KEY_LEN` bytes of key. -/
def blake3_hasher_init_keyed (key : List Byte) : blake3_hasher :=
  { mode := Mode.keyed (key.take BLAKE3_KEY_LEN), absorbed := [] }

/-- Modelled from the spec: library `blake3_hasher_init_derive_key`. -/
def blake3_hasher_init_derive_key (context : List Byte) : blake3_hasher :=
  { mode := Mode.derive_key context, absorbed := [] }

/-- Modelled from the spec: library `blake3_hasher_update` feeds bytes into the
state. -/
def blake3_hasher_update (self : blake3_hasher) (bytes : List Byte) : blake3_hasher :=
  { self with absorbed := self.absorbed ++ bytes }

/-- Modelled from the spec: library `blake3_hasher_reset` returns the hasher to its
state prior to any update; the key or context it was initialised with is kept, as
the library documents. -/
def blake3_hasher_reset (self : blake3_hasher) : blake3_hasher :=
  { self with absorbed := [] }

/-- Modelled from the spec: library `blake3_hasher_finalize_seek` produces `out_len`
bytes of extended output starting at byte `seek`. -/
def blake3_hasher_finalize_seek (lib : Blake3) (self : blake3_hasher) (seek out_len : Nat) :
    List Byte :=
  (List.range out_len).map (fun i => lib.xof self.mode self.absorbed (seek + i))

/-- Modelled from the spec: library `blake3_hasher_finalize` is the output from
position zero. -/
def blake3_hasher_finalize (lib : Blake3) (self : blake3_hasher) (out_len : Nat) : List Byte :=
  blake3_hasher_finalize_seek lib self 0 out_len

/-- A concrete output function used to evaluate the model on examples: byte `i` is the
sum of a mode tag, the input bytes and `i`, modulo 256. -/
def sumXof : Blake3 where
  xof := fun m s i =>
    let tag : Nat :=
      match m with
      | Mode.default => 0
      | Mode.keyed key => 1 + (key.map Fin.val).sum
      | Mode.derive_key context => 2 + (context.map Fin.val).sum
    Fin.ofNat (tag + (s.map Fin.val).sum + i)

namespace blaze_jni

/-! ## Memory -/

/-- Storage for one `blake3_hasher` object on the free store: released by `delete`,
allocated by `new blake3_hasher` and not yet initialised, or holding a hasher. -/
inductive Cell where
  | freed
  | uninit
  | live (h : blake3_hasher)
  deriving DecidableEq

/-- An address in the memory behind the direct buffers: an allocation and a byte offset
into it. -/
structure Addr where
  block : Nat
  offset : Nat
  deriving DecidableEq

/-- A Java direct `ByteBuffer` as JNI sees it: `capacity` bytes of the allocation `block`
that start at byte `offset`.  A slice of a buffer is a buffer on the same allocation. -/
structure DirectBuffer where
  block : Nat
  offset : Nat
  capacity : Nat
  deriving DecidableEq

/-- The file-scope variables `input`, `output` and `hasher`, the free store and the
memory behind the direct buffers, one list of bytes per allocation.  A hasher pointer is a
number, `0` being `NULL` and `p + 1` the object in `heap[p]`; `input` and `output` are
addresses, `none` being `NULL`. -/
structure State where
  input : Option Addr
  output : Option Addr
  hasher : Nat
  heap : List Cell
  direct : List (List Byte)
  deriving DecidableEq

/-- The state of a process that has not called the binding yet and owns the given
allocations of direct-buffer memory. -/
def State.start (direct : List (List Byte)) : State :=
  { input := none, output := none, hasher := 0, heap := [], direct := direct }

/-- Conversion of a `jint` or `jlong` argument to `size_t` / `uint64_t`. -/
def to_size_t (n : Int) : Nat := (n % 2 ^ 64).toNat

/-- Source `hasher_ptr`: the cast of a `jlong` handle to a pointer. -/
def hasher_ptr (self : Nat) : Nat := self

/-- Source `get_byte_array`: the elements of a Java array. -/
def get_byte_array (java_array : List Byte) : List Byte := java_array

/-- Source `release_byte_array` with mode `0`: the elements are copied back into the
array. -/
def release_byte_array (_array : List Byte) (addr : List Byte) : List Byte := addr

/-- JNI `GetDirectBufferAddress`: the address of the first byte of a direct buffer, `NULL`
for an object that is not a direct buffer of this process. -/
def GetDirectBufferAddress (s : State) (buffer : DirectBuffer) : Option Addr :=
  match s.direct[buffer.block]? with
  | none => none
  | some m =>
    if buffer.offset + buffer.capacity ≤ m.length then
      some { block := buffer.block, offset := buffer.offset }
    else none

/-- The memory at a pointer: the bytes from the address to the end of its allocation. -/
def region (s : State) (p : Option Addr) : Option (List Byte) :=
  match p with
  | none => none
  | some a =>
    match s.direct[a.block]? with
    | none => none
    | some m => if a.offset ≤ m.length then some (m.drop a.offset) else none

/-- The byte stored at offset `j` of allocation `b`. -/
def byte_at (s : State) (b j : Nat) : Option Byte :=
  (s.direct[b]?).bind (fun m => m[j]?)

/-- Expression `new blake3_hasher`: a fresh object, default-initialised (that is, not
initialised), and the pointer to it. -/
def new_hasher (heap : List Cell) : List Cell × Nat :=
  (heap ++ [Cell.uninit], heap.length + 1)

/-- Expression `delete p` for a non-null `p`: the object must exist. -/
def delete_ptr (heap : List Cell) (p : Nat) : Option (List Cell) :=
  match p with
  | 0 => none
  | q + 1 =>
    match heap[q]? with
    | some Cell.uninit => some (heap.set q Cell.freed)
    | some (Cell.live _) => some (heap.set q Cell.freed)
    | _ => none

/-- Reading the hasher a pointer refers to: defined for an initialised, live object. -/
def load (heap : List Cell) (p : Nat) : Option blake3_hasher :=
  match p with
  | 0 => none
  | q + 1 =>
    match heap[q]? with
    | some (Cell.live h) => some h
    | _ => none

/-- Writing a hasher through a pointer: defined for an allocated object, initialised
or not. -/
def store (heap : List Cell) (p : Nat) (h : blake3_hasher) : Option (List Cell) :=
  match p with
  | 0 => none
  | q + 1 =>
    match heap[q]? with
    | some Cell.uninit => some (heap.set q (Cell.live h))
    | some (Cell.live _) => some (heap.set q (Cell.live h))
    | _ => none

/-- Reading `n` bytes at a pointer; nothing is read when `n = 0`. -/
def read_bytes (mem : Option (List Byte)) (n : Nat) : Option (List Byte) :=
  if n = 0 then some []
  else
    match mem with
    | none => none
    | some r => if n ≤ r.length then some (r.take n) else none

/-- Writing `n` bytes, given by `bytes`, at offset `offset` of an allocation or array. -/
def write_bytes (mem : List Byte) (offset n : Nat) (bytes : List Byte) : Option (List Byte) :=
  if offset + n ≤ mem.length then some (mem.take offset ++ bytes ++ mem.drop (offset + n))
  else none

/-! ## Library calls through pointers -/

/-- Call `blake3_hasher_init(p)`. -/
def call_init (s : State) (p : Nat) : Option State :=
  (store s.heap p blake3_hasher_init).map (fun heap => { s with heap := heap })

/-- Call `blake3_hasher_reset(p)`. -/
def call_reset (s : State) (p : Nat) : Option State :=
  (load s.heap p).bind (fun h =>
    (store s.heap p (blake3_hasher_reset h)).map (fun heap => { s with heap := heap }))

/-- Call `blake3_hasher_update(p, src, len)`. -/
def call_update (s : State) (p : Nat) (src : Option (List Byte)) (len : Nat) : Option State :=
  (load s.heap p).bind (fun h =>
    (read_bytes src len).bind (fun bytes =>
      (store s.heap p (blake3_hasher_update h bytes)).map (fun heap => { s with heap := heap })))

/-- Call `blake3_hasher_finalize(p, output, len)` with the file-scope `output`. -/
def call_finalize (lib : Blake3) (s : State) (p : Nat) (len : Nat) : Option State :=
  (load s.heap p).bind (fun h =>
    if len = 0 then some s
    else
      match s.output with
      | none => none
      | some o =>
        (s.direct[o.block]?).bind (fun m =>
          (write_bytes m o.offset len (blake3_hasher_finalize lib h len)).map (fun m1 =>
            { s with direct := s.direct.set o.block m1 })))

/-! ## Entry points -/

/-- Entry point `blake3_take_arrays`. -/
def Java_com_google_devtools_build_lib_hash_Blake3JNI_blake3_1take_1arrays
    (s : State) (byteBuffer hashBuffer : DirectBuffer) : State :=
  { s with input := GetDirectBufferAddress s byteBuffer,
           output := GetDirectBufferAddress s hashBuffer }

/-- Entry point `blake3_trash`. -/
def Java_com_google_devtools_build_lib_hash_Blake3JNI_blake3_1trash
    (s : State) (_byteBuffer : DirectBuffer) : State × Nat :=
  (s, 0)

/-- Entry point `allocate_hasher`. -/
def Java_com_google_devtools_build_lib_hash_Blake3JNI_allocate_1hasher
    (s : State) : Option (State × Nat) :=
  if s.hasher = 0 then
    let a := new_hasher s.heap
    some ({ s with hasher := a.2, heap := a.1 }, a.2)
  else
    (call_reset s s.hasher).map (fun s1 => (s1, s1.hasher))

/-- Entry point `delete_hasher`. -/
def Java_com_google_devtools_build_lib_hash_Blake3JNI_delete_1hasher
    (s : State) (self : Nat) : Option State :=
  let hasher := hasher_ptr self
  if hasher ≠ 0 then
    (delete_ptr s.heap hasher).map (fun heap => { s with heap := heap })
  else
    some s

/-- The `if (hasher == NULL) ... else ...` block shared by `blake3_hasher_init` and the
two fused entry points. -/
def init_or_reset (s : State) : Option State :=
  if s.hasher = 0 then
    let a := new_hasher s.heap
    call_init { s with hasher := a.2, heap := a.1 } a.2
  else
    call_reset s s.hasher

/-- Entry point `blake3_hasher_init`. -/
def Java_com_google_devtools_build_lib_hash_Blake3JNI_blake3_1hasher_1init
    (s : State) : Option (State × Nat) :=
  (init_or_reset s).map (fun s1 => (s1, s1.hasher))

/-- Entry point `blake3_hasher_init_keyed`. -/
def Java_com_google_devtools_build_lib_hash_Blake3JNI_blake3_1hasher_1init_1keyed
    (s : State) (self : Nat) (key : List Byte) : Option State :=
  let key_addr := get_byte_array key
  if BLAKE3_KEY_LEN ≤ key_addr.length then
    (store s.heap (hasher_ptr self) (blake3_hasher_init_keyed key_addr)).map
      (fun heap => { s with heap := heap })
  else
    none

/-- Entry point `blake3_hasher_init_derive_key`. -/
def Java_com_google_devtools_build_lib_hash_Blake3JNI_blake3_1hasher_1init_1derive_1key
    (s : State) (self : Nat) (context : List Byte) : Option State :=
  (store s.heap (hasher_ptr self) (blake3_hasher_init_derive_key context)).map
    (fun heap => { s with heap := heap })

/-- Entry point `blake3_hasher_update`. -/
def Java_com_google_devtools_build_lib_hash_Blake3JNI_blake3_1hasher_1update
    (s : State) (input_arr : List Byte) (input_len : Int) : Option State :=
  let input_addr := get_byte_array input_arr
  call_update s s.hasher (some input_addr) (to_size_t input_len)

/-- Entry point `blake3_hasher_finalize`. -/
def Java_com_google_devtools_build_lib_hash_Blake3JNI_blake3_1hasher_1finalize
    (lib : Blake3) (s : State) (self : Nat) (out_len : Int) : Option State :=
  call_finalize lib s (hasher_ptr self) (to_size_t out_len)

/-- Entry point `blake3_hasher_finalize_seek`; the second component is the array `out`
after the call. -/
def Java_com_google_devtools_build_lib_hash_Blake3JNI_blake3_1hasher_1finalize_1seek
    (lib : Blake3) (s : State) (self : Nat) (seek : Int) (out : List Byte) (out_len : Int) :
    Option (State × List Byte) :=
  let out_addr := get_byte_array out
  (load s.heap (hasher_ptr self)).bind (fun h =>
    (write_bytes out_addr 0 (to_size_t out_len)
        (blake3_hasher_finalize_seek lib h (to_size_t seek) (to_size_t out_len))).map
      (fun out_addr1 => (s, release_byte_array out out_addr1)))

/-- Entry point `blake3_hasher_init_and_flush`. -/
def Java_com_google_devtools_build_lib_hash_Blake3JNI_blake3_1hasher_1init_1and_1flush
    (s : State) (_offset : Int) (input_len : Int) : Option (State × Nat) :=
  (init_or_reset s).bind (fun s1 =>
    (call_update s1 s1.hasher (region s1 s1.input) (to_size_t input_len)).map
      (fun s2 => (s2, s2.hasher)))

/-- Entry point `blake3_hasher_init_and_flush_and_finalize`. -/
def Java_com_google_devtools_build_lib_hash_Blake3JNI_blake3_1hasher_1init_1and_1flush_1and_1finalize
    (lib : Blake3) (s : State) (input_len : Int) (out_len : Int) : Option (State × Nat) :=
  (init_or_reset s).bind (fun s1 =>
    (if input_len > 0 then
        call_update s1 s1.hasher (region s1 s1.input) (to_size_t input_len)
      else some s1).bind (fun s2 =>
      (call_finalize lib s2 s2.hasher (to_size_t out_len)).map (fun s3 => (s3, s3.hasher))))

/-- Entry point `blake3_hasher_flush_and_finalize`. -/
def Java_com_google_devtools_build_lib_hash_Blake3JNI_blake3_1hasher_1flush_1and_1finalize
    (lib : Blake3) (s : State) (self : Nat) (input_arr : List Byte) (input_len : Int)
    (out_len : Int) : Option State :=
  let hasher := hasher_ptr self
  (if input_len > 0 then
      let input_addr := get_byte_array input_arr
      call_update s hasher (some input_addr) (to_size_t input_len)
    else some s).bind (fun s1 =>
    call_finalize lib s1 hasher (to_size_t out_len))

/-! ## Call sequences used in the statements -/

/-- The call sequence `h = blake3_hasher_init(); blake3_hasher_update(S, |S|);
blake3_hasher_finalize(h, L)`; the result carries the handle `h`. -/
def init_update_finalize (lib : Blake3) (s : State) (S : List Byte) (L : Nat) :
    Option (State × Nat) :=
  (Java_com_google_devtools_build_lib_hash_Blake3JNI_blake3_1hasher_1init s).bind (fun r =>
    (Java_com_google_devtools_build_lib_hash_Blake3JNI_blake3_1hasher_1update r.1 S
        (S.length : Int)).bind (fun s2 =>
      (Java_com_google_devtools_build_lib_hash_Blake3JNI_blake3_1hasher_1finalize lib s2 r.2
          (L : Int)).map (fun s3 => (s3, r.2))))

/-- The call sequence `blake3_hasher_update(S, |S|); blake3_hasher_finalize(handle, L)`. -/
def update_finalize (lib : Blake3) (s : State) (handle : Nat) (S : List Byte) (L : Nat) :
    Option State :=
  (Java_com_google_devtools_build_lib_hash_Blake3JNI_blake3_1hasher_1update s S
      (S.length : Int)).bind (fun s1 =>
    Java_com_google_devtools_build_lib_hash_Blake3JNI_blake3_1hasher_1finalize lib s1 handle
      (L : Int))

/-- A process that owns a four-byte and a five-byte direct buffer and has registered
them as input and output. -/
def demo : State :=
  Java_com_google_devtools_build_lib_hash_Blake3JNI_blake3_1take_1arrays
    (State.start [[1, 2, 3, 4], [9, 9, 9, 9, 9]])
    { block := 0, offset := 0, capacity := 4 } { block := 1, offset := 0, capacity := 5 }

/-- The process `demo` after `blake3_hasher_init()`: the hasher exists, in default mode,
and its handle is `1`. -/
def demo_live : State :=
  match Java_com_google_devtools_build_lib_hash_Blake3JNI_blake3_1hasher_1init demo with
  | some r => r.1
  | none => demo

/-- A process that owns one three-byte direct buffer `b` holding `[1, 2, 3]`; it has
registered the slice of `b` that starts at byte `1` as input and `b` itself as output. -/
def aliased : State :=
  Java_com_google_devtools_build_lib_hash_Blake3JNI_blake3_1take_1arrays
    (State.start [[1, 2, 3]])
    { block := 0, offset := 1, capacity := 2 } { block := 0, offset := 0, capacity := 3 }

/-- A process that owns one four-byte allocation holding `[1, 2, 3, 4]`; it has registered
the two bytes from byte `2` as input and the two bytes from byte `0` as output, and has
created its hasher, whose handle is `1`. -/
def sliced : State :=
  match Java_com_google_devtools_build_lib_hash_Blake3JNI_blake3_1hasher_1init
      (Java_com_google_devtools_build_lib_hash_Blake3JNI_blake3_1take_1arrays
        (State.start [[1, 2, 3, 4]])
        { block := 0, offset := 2, capacity := 2 } { block := 0, offset := 0, capacity := 2 })
  with
  | some r => r.1
  | none => State.start []

/-- The entry points as values, for statements about sequences of calls. -/
inductive Call where
  | take_arrays (byteBuffer hashBuffer : DirectBuffer)
  | trash (byteBuffer : DirectBuffer)
  | allocate_hasher
  | delete_hasher (self : Nat)
  | hasher_init
  | hasher_init_keyed (self : Nat) (key : List Byte)
  | hasher_init_derive_key (self : Nat) (context : List Byte)
  | hasher_update (input_arr : List Byte) (input_len : Int)
  | hasher_finalize (self : Nat) (out_len : Int)
  | hasher_finalize_seek (self : Nat) (seek : Int) (out : List Byte) (out_len : Int)
  | hasher_init_and_flush (offset input_len : Int)
  | hasher_init_and_flush_and_finalize (input_len out_len : Int)
  | hasher_flush_and_finalize (self : Nat) (input_arr : List Byte) (input_len out_len : Int)

/-- One call: the state after it and the hasher handle it returns, if it returns one. -/
def exec (lib : Blake3) (s : State) : Call → Option (State × Option Nat)
  | Call.take_arrays byteBuffer hashBuffer =>
    some (Java_com_google_devtools_build_lib_hash_Blake3JNI_blake3_1take_1arrays s byteBuffer
      hashBuffer, none)
  | Call.trash byteBuffer =>
    some ((Java_com_google_devtools_build_lib_hash_Blake3JNI_blake3_1trash s byteBuffer).1, none)
  | Call.allocate_hasher =>
    (Java_com_google_devtools_build_lib_hash_Blake3JNI_allocate_1hasher s).map
      (fun r => (r.1, some r.2))
  | Call.delete_hasher self =>
    (Java_com_google_devtools_build_lib_hash_Blake3JNI_delete_1hasher s self).map
      (fun s1 => (s1, none))
  | Call.hasher_init =>
    (Java_com_google_devtools_build_lib_hash_Blake3JNI_blake3_1hasher_1init s).map
      (fun r => (r.1, some r.2))
  | Call.hasher_init_keyed self key =>
    (Java_com_google_devtools_build_lib_hash_Blake3JNI_blake3_1hasher_1init_1keyed s self
      key).map (fun s1 => (s1, none))
  | Call.hasher_init_derive_key self context =>
    (Java_com_google_devtools_build_lib_hash_Blake3JNI_blake3_1hasher_1init_1derive_1key s self
      context).map (fun s1 => (s1, none))
  | Call.hasher_update input_arr input_len =>
    (Java_com_google_devtools_build_lib_hash_Blake3JNI_blake3_1hasher_1update s input_arr
      input_len).map (fun s1 => (s1, none))
  | Call.hasher_finalize self out_len =>
    (Java_com_google_devtools_build_lib_hash_Blake3JNI_blake3_1hasher_1finalize lib s self
      out_len).map (fun s1 => (s1, none))
  | Call.hasher_finalize_seek self seek out out_len =>
    (Java_com_google_devtools_build_lib_hash_Blake3JNI_blake3_1hasher_1finalize_1seek lib s self
      seek out out_len).map (fun r => (r.1, none))
  | Call.hasher_init_and_flush offset input_len =>
    (Java_com_google_devtools_build_lib_hash_Blake3JNI_blake3_1hasher_1init_1and_1flush s offset
      input_len).map (fun r => (r.1, some r.2))
  | Call.hasher_init_and_flush_and_finalize input_len out_len =>
    (Java_com_google_devtools_build_lib_hash_Blake3JNI_blake3_1hasher_1init_1and_1flush_1and_1finalize
      lib s input_len out_len).map (fun r => (r.1, some r.2))
  | Call.hasher_flush_and_finalize self input_arr input_len out_len =>
    (Java_com_google_devtools_build_lib_hash_Blake3JNI_blake3_1hasher_1flush_1and_1finalize lib s
      self input_arr input_len out_len).map (fun s1 => (s1, none))

/-- A sequence of calls: the final state and the handles returned on the way, in order. -/
def run (lib : Blake3) : State → List Call → Option (State × List Nat)
  | s, [] => some (s, [])
  | s, c :: cs =>
    (exec lib s c).bind (fun r =>
      (run lib r.1 cs).map (fun q => (q.1, r.2.toList ++ q.2)))

/-! ## Memory lemmas -/

theorem to_size_t_natCast (n : Nat) (h : n < 2 ^ 64) : to_size_t (n : Int) = n := by
  unfold to_size_t
  have h1 : ((n : Int) % 2 ^ 64) = (n : Int) := by
    apply Int.emod_eq_of_lt
    · exact Int.ofNat_nonneg n
    · exact_mod_cast h
  rw [h1]
  exact Int.toNat_natCast n

theorem getElem?_lt_of_some {α : Type} {l : List α} {i : Nat} {a : α} (h : l[i]? = some a) :
    i < l.length := by
  by_contra hc
  rw [List.getElem?_eq_none (by omega)] at h
  simp at h

theorem set_same_of_getElem? {α : Type} {l : List α} {i : Nat} {a : α} (h : l[i]? = some a) :
    l.set i a = l := by
  apply List.ext_getElem?
  intro j
  by_cases hj : i = j
  · subst hj
    simp [List.getElem?_set, getElem?_lt_of_some h, h]
  · simp [List.getElem?_set, hj]

theorem region_some {s : State} {p : Option Addr} {r : List Byte} (h : region s p = some r) :
    ∃ a m, p = some a ∧ s.direct[a.block]? = some m ∧ a.offset ≤ m.length ∧
      r = m.drop a.offset := by
  cases p with
  | none => simp [region] at h
  | some a =>
    simp only [region] at h
    cases hm : s.direct[a.block]? with
    | none => simp [hm] at h
    | some m =>
      simp only [hm] at h
      split at h
      · rename_i hle
        cases h
        exact ⟨a, m, rfl, hm, hle, rfl⟩
      · simp at h

theorem region_congr {s s1 : State} (hd : s1.direct = s.direct) (p : Option Addr) :
    region s1 p = region s p := by
  cases p with
  | none => rfl
  | some a => simp only [region, hd]

theorem written_drop (m bytes : List Byte) (off n : Nat) (hoff : off ≤ m.length) :
    (m.take off ++ bytes ++ m.drop (off + n)).drop off = bytes ++ (m.drop off).drop n := by
  rw [List.append_assoc, List.drop_left' (by simp [hoff]), List.drop_drop]

theorem written_length (m bytes : List Byte) (off n : Nat) (h : off + n ≤ m.length)
    (hb : bytes.length = n) :
    (m.take off ++ bytes ++ m.drop (off + n)).length = m.length := by
  simp [hb]
  omega

theorem written_getElem?_outside (m bytes : List Byte) (off n j : Nat)
    (h : off + n ≤ m.length) (hb : bytes.length = n) (hj : j < off ∨ off + n ≤ j) :
    (m.take off ++ bytes ++ m.drop (off + n))[j]? = m[j]? := by
  have hlt : (m.take off).length = off := by simp; omega
  rcases hj with hj | hj
  · rw [List.append_assoc, List.getElem?_append_left (by omega),
      List.getElem?_take_of_lt hj]
  · rw [List.getElem?_append_right (by simp [hb]; omega), List.getElem?_drop]
    congr 1
    simp [hb]
    omega

theorem byte_at_set_other {s : State} {b c j : Nat} {m1 : List Byte} (h : c ≠ b) :
    byte_at { s with direct := s.direct.set c m1 } b j = byte_at s b j := by
  simp only [byte_at, List.getElem?_set_ne h]

/-- The memory at an address, cut to `K` bytes, is fixed by the bytes at those `K`
offsets and the size of the allocation. -/
theorem region_take_eq {s s1 : State} {a : Addr} {K : Nat}
    (hlen : (s1.direct[a.block]?).map List.length = (s.direct[a.block]?).map List.length)
    (hb : ∀ j, a.offset ≤ j → j < a.offset + K → byte_at s1 a.block j = byte_at s a.block j) :
    (region s1 (some a)).map (List.take K) = (region s (some a)).map (List.take K) := by
  simp only [region]
  cases hm : s.direct[a.block]? with
  | none =>
    cases hm1 : s1.direct[a.block]? with
    | none => rfl
    | some m1 => simp [hm, hm1] at hlen
  | some m =>
    cases hm1 : s1.direct[a.block]? with
    | none => simp [hm, hm1] at hlen
    | some m1 =>
      have hl : m1.length = m.length := by simpa [hm, hm1] using hlen
      simp only [hl]
      by_cases hle : a.offset ≤ m.length
      · simp only [hle, if_true, Option.map_some', Option.some.injEq]
        apply List.ext_getElem?
        intro j
        by_cases hj : j < K
        · rw [List.getElem?_take_of_lt hj, List.getElem?_take_of_lt hj, List.getElem?_drop,
            List.getElem?_drop]
          have := hb (a.offset + j) (by omega) (by omega)
          simpa [byte_at, hm, hm1] using this
        · rw [List.getElem?_take_eq_none (by omega), List.getElem?_take_eq_none (by omega)]
      · simp only [hle, if_false, Option.map_none']

theorem load_pos {heap : List Cell} {p : Nat} {h0 : blake3_hasher} (hl : load heap p = some h0) :
    ∃ q, p = q + 1 ∧ heap[q]? = some (Cell.live h0) := by
  cases p with
  | zero => simp [load] at hl
  | succ q =>
    refine ⟨q, rfl, ?_⟩
    simp only [load] at hl
    split at hl
    · rename_i h heq
      simp at hl
      rw [heq, hl]
    · simp at hl

theorem load_ne_zero {heap : List Cell} {p : Nat} {h0 : blake3_hasher}
    (hl : load heap p = some h0) : p ≠ 0 := by
  obtain ⟨q, hq, _⟩ := load_pos hl
  omega

theorem store_of_load {heap : List Cell} {p : Nat} {h0 : blake3_hasher}
    (hl : load heap p = some h0) (h1 : blake3_hasher) :
    store heap p h1 = some (heap.set (p - 1) (Cell.live h1)) := by
  obtain ⟨q, rfl, hq⟩ := load_pos hl
  simp [store, hq]

theorem load_set_of_load {heap : List Cell} {p : Nat} {h0 : blake3_hasher}
    (hl : load heap p = some h0) (h1 : blake3_hasher) :
    load (heap.set (p - 1) (Cell.live h1)) p = some h1 := by
  obtain ⟨q, rfl, hq⟩ := load_pos hl
  simp [load, List.getElem?_set, getElem?_lt_of_some hq]

theorem set_same_of_load {heap : List Cell} {p : Nat} {h0 : blake3_hasher}
    (hl : load heap p = some h0) :
    heap.set (p - 1) (Cell.live h0) = heap := by
  obtain ⟨q, rfl, hq⟩ := load_pos hl
  exact set_same_of_getElem? hq

theorem load_append_live (heap : List Cell) (h1 : blake3_hasher) :
    load (heap ++ [Cell.live h1]) (heap.length + 1) = some h1 := by
  simp [load]

theorem finalize_length (lib : Blake3) (h : blake3_hasher) (n : Nat) :
    (blake3_hasher_finalize lib h n).length = n := by
  simp [blake3_hasher_finalize, blake3_hasher_finalize_seek]

theorem take_finalize_append (lib : Blake3) (h : blake3_hasher) (L : Nat) (t : List Byte) :
    (blake3_hasher_finalize lib h L ++ t).take L = blake3_hasher_finalize lib h L :=
  List.take_left' (finalize_length lib h L)

theorem drop_finalize_append (lib : Blake3) (h : blake3_hasher) (L : Nat) (t : List Byte) :
    (blake3_hasher_finalize lib h L ++ t).drop L = t :=
  List.drop_left' (finalize_length lib h L)

theorem read_bytes_prefix (S rest : List Byte) :
    read_bytes (some (S ++ rest)) S.length = some S := by
  unfold read_bytes
  by_cases h : S.length = 0
  · simp [h, List.length_eq_zero.mp h]
  · simp [h]

theorem read_bytes_all (S : List Byte) : read_bytes (some S) S.length = some S := by
  have h := read_bytes_prefix S []
  simpa using h

theorem read_bytes_take {r : List Byte} {n : Nat} (hn : n ≤ r.length) :
    read_bytes (some r) n = some (r.take n) := by
  unfold read_bytes
  by_cases h : n = 0
  · simp [h]
  · simp [h, hn]

/-! ## What each library call does to the state -/

theorem init_or_reset_null {s : State} (h : s.hasher = 0) :
    init_or_reset s =
      some { s with hasher := s.heap.length + 1,
                    heap := s.heap ++ [Cell.live blake3_hasher_init] } := by
  simp [init_or_reset, h, call_init, store, new_hasher]

theorem init_or_reset_live {s : State} {h0 : blake3_hasher}
    (hl : load s.heap s.hasher = some h0) :
    init_or_reset s =
      some { s with heap := s.heap.set (s.hasher - 1) (Cell.live (blake3_hasher_reset h0)) } := by
  simp [init_or_reset, load_ne_zero hl, call_reset, hl, store_of_load hl]

theorem init_or_reset_spec (s : State) (h0 : blake3_hasher)
    (hh : (s.hasher = 0 ∧ h0 = blake3_hasher_init) ∨
      (∃ h, load s.heap s.hasher = some h ∧ h0 = blake3_hasher_reset h)) :
    ∃ s1, init_or_reset s = some s1 ∧ load s1.heap s1.hasher = some h0 ∧
      s1.hasher = (if s.hasher = 0 then s.heap.length + 1 else s.hasher) ∧
      s1.input = s.input ∧ s1.output = s.output ∧ s1.direct = s.direct := by
  rcases hh with ⟨h, rfl⟩ | ⟨h, hl, rfl⟩
  · refine ⟨_, init_or_reset_null h, load_append_live s.heap _, ?_, rfl, rfl, rfl⟩
    simp [h]
  · refine ⟨_, init_or_reset_live hl, load_set_of_load hl _, ?_, rfl, rfl, rfl⟩
    simp [load_ne_zero hl]

theorem call_update_spec {s : State} {p : Nat} {h : blake3_hasher} {m : Option (List Byte)}
    {n : Nat} {bytes : List Byte} (hl : load s.heap p = some h)
    (hr : read_bytes m n = some bytes) :
    ∃ s1, call_update s p m n = some s1 ∧
      load s1.heap p = some (blake3_hasher_update h bytes) ∧ s1.hasher = s.hasher ∧
      s1.input = s.input ∧ s1.output = s.output ∧ s1.direct = s.direct := by
  refine ⟨{ s with heap := s.heap.set (p - 1) (Cell.live (blake3_hasher_update h bytes)) },
    ?_, load_set_of_load hl _, rfl, rfl, rfl, rfl⟩
  simp [call_update, hl, hr, store_of_load hl]

/-- What `blake3_hasher_finalize(p, output, n)` does when `p` is a live hasher and the
memory at `output` holds at least `n` bytes: the `n` bytes at `output` become the
library's output, and no other byte, no allocation size, neither pointer and nothing on
the free store changes. -/
theorem call_finalize_spec (lib : Blake3) {s : State} {p : Nat} {h : blake3_hasher} {n : Nat}
    {r : List Byte} (hl : load s.heap p = some h) (hr : region s s.output = some r)
    (hn : n ≤ r.length) :
    ∃ s1, call_finalize lib s p n = some s1 ∧ s1.heap = s.heap ∧ s1.hasher = s.hasher ∧
      s1.input = s.input ∧ s1.output = s.output ∧
      region s1 s1.output = some (blake3_hasher_finalize lib h n ++ r.drop n) ∧
      (∀ b j : Nat,
        (∀ o, s.output = some o → ¬ (b = o.block ∧ o.offset ≤ j ∧ j < o.offset + n)) →
        byte_at s1 b j = byte_at s b j) ∧
      (∀ b : Nat, (s1.direct[b]?).map List.length = (s.direct[b]?).map List.length) := by
  by_cases h0 : n = 0
  · subst h0
    refine ⟨s, ?_, rfl, rfl, rfl, rfl, ?_, fun _ _ _ => rfl, fun _ => rfl⟩
    · simp [call_finalize, hl]
    · simp [blake3_hasher_finalize, blake3_hasher_finalize_seek, hr]
  · obtain ⟨o, m, ho, hm, hoff, rfl⟩ := region_some hr
    have hfit : o.offset + n ≤ m.length := by
      simp only [List.length_drop] at hn
      omega
    have hfl := finalize_length lib h n
    have hblk : o.block < s.direct.length := getElem?_lt_of_some hm
    obtain ⟨m1, hm1⟩ : ∃ m1 : List Byte, m1 =
        m.take o.offset ++ blake3_hasher_finalize lib h n ++ m.drop (o.offset + n) := ⟨_, rfl⟩
    have hlen1 : m1.length = m.length := by
      rw [hm1]; exact written_length m _ _ n hfit hfl
    refine ⟨{ s with direct := s.direct.set o.block m1 }, ?_, rfl, rfl, rfl, rfl, ?_, ?_, ?_⟩
    · simp [call_finalize, hl, h0, ho, hm, write_bytes, hfit, hm1]
    · show region _ s.output = _
      rw [ho]
      simp only [region, List.getElem?_set_self hblk, hlen1, hoff, if_true]
      rw [hm1, written_drop m _ _ n hoff]
    · intro b j hout
      by_cases hb : o.block = b
      · subst hb
        have hj : j < o.offset ∨ o.offset + n ≤ j := by
          have := hout o ho
          by_contra hc
          exact this ⟨rfl, by omega, by omega⟩
        simp only [byte_at, List.getElem?_set_self hblk, hm, Option.some_bind]
        rw [hm1, written_getElem?_outside m _ _ n j hfit hfl hj]
      · exact byte_at_set_other hb
    · intro b
      by_cases hb : o.block = b
      · subst hb
        simp only [List.getElem?_set_self hblk, hm, Option.map_some', hlen1]
      · simp only [List.getElem?_set_ne hb]

theorem init_update_finalize_spec (lib : Blake3) (s : State) (h0 : blake3_hasher)
    (S : List Byte) (L : Nat) (r : List Byte)
    (hh : (s.hasher = 0 ∧ h0 = blake3_hasher_init) ∨
      (∃ h, load s.heap s.hasher = some h ∧ h0 = blake3_hasher_reset h))
    (hS : S.length < 2 ^ 31) (hL : L < 2 ^ 31)
    (hr : region s s.output = some r) (hfit : L ≤ r.length) :
    ∃ s3, init_update_finalize lib s S L = some (s3, s3.hasher) ∧
      load s3.heap s3.hasher = some (blake3_hasher_update h0 S) ∧
      s3.hasher = (if s.hasher = 0 then s.heap.length + 1 else s.hasher) ∧
      s3.input = s.input ∧ s3.output = s.output ∧
      region s3 s3.output =
        some (blake3_hasher_finalize lib (blake3_hasher_update h0 S) L ++ r.drop L) := by
  obtain ⟨s1, e1, l1, k1, i1, o1, d1⟩ := init_or_reset_spec s h0 hh
  have hsz : to_size_t (S.length : Int) = S.length := to_size_t_natCast _ (by omega)
  have hsz2 : to_size_t (L : Int) = L := to_size_t_natCast _ (by omega)
  obtain ⟨s2, e2, l2, p2, i2, o2, d2⟩ :=
    call_update_spec (s := s1) (m := some S) (n := S.length) l1 (read_bytes_all S)
  have hr2 : region s2 s2.output = some r := by
    rw [o2, o1, region_congr (d2.trans d1)]
    exact hr
  obtain ⟨s3, e3, hp3, p3, i3, o3, r3, _, _⟩ :=
    call_finalize_spec lib (s := s2) (p := s1.hasher) (n := L) l2 hr2 hfit
  have hp : s3.hasher = s1.hasher := p3.trans p2
  refine ⟨s3, ?_, ?_, ?_, ?_, ?_, r3⟩
  · simp only [init_update_finalize,
      Java_com_google_devtools_build_lib_hash_Blake3JNI_blake3_1hasher_1init,
      Java_com_google_devtools_build_lib_hash_Blake3JNI_blake3_1hasher_1update,
      Java_com_google_devtools_build_lib_hash_Blake3JNI_blake3_1hasher_1finalize,
      get_byte_array, hasher_ptr, e1, Option.map_some', Option.some_bind, hsz, hsz2, e2, e3, hp]
  · rw [hp3, hp]; exact l2
  · rw [hp]; exact k1
  · rw [i3, i2, i1]
  · rw [o3, o2, o1]

/-- A registered direct buffer provides at least its capacity: when
`GetDirectBufferAddress` returns an address, the memory there holds `capacity` bytes or
more. -/
theorem region_of_GetDirectBufferAddress {s : State} {buffer : DirectBuffer} {a : Addr}
    (h : GetDirectBufferAddress s buffer = some a) :
    ∃ r, region s (some a) = some r ∧ buffer.capacity ≤ r.length := by
  simp only [GetDirectBufferAddress] at h
  cases hm : s.direct[buffer.block]? with
  | none => simp [hm] at h
  | some m =>
    simp only [hm] at h
    split at h
    · rename_i hle
      cases h
      refine ⟨m.drop buffer.offset, ?_, ?_⟩
      · have : buffer.offset ≤ m.length := by omega
        simp [region, hm, this]
      · simp only [List.length_drop]
        omega
    · simp at h

/-! ## The claims -/

/-- C1 (pass-through fidelity of the one-shot entry point): once `blake3_take_arrays` has
registered an input buffer whose first `|S|` bytes are `S` and an output buffer of at least
`out_len` bytes, `blake3_hasher_init_and_flush_and_finalize(|S|, out_len)` returns a
non-null handle and leaves `finalize(update(init(), S), out_len)` of the library in the
first `out_len` bytes of the output buffer, whether the hasher did not exist yet or
existed in default mode with any input already absorbed. -/
theorem one_shot_pass_through (lib : Blake3) (s0 : State) (byteBuffer hashBuffer : DirectBuffer)
    (S rest out0 : List Byte) (out_len : Nat)
    (hS : region s0 (GetDirectBufferAddress s0 byteBuffer) = some (S ++ rest))
    (hO : region s0 (GetDirectBufferAddress s0 hashBuffer) = some out0)
    (hSlen : S.length < 2 ^ 31) (hLlen : out_len < 2 ^ 31) (hfit : out_len ≤ out0.length)
    (hh : s0.hasher = 0 ∨
      ∃ a, load s0.heap s0.hasher = some { mode := Mode.default, absorbed := a }) :
    ∃ s1 handle r,
      Java_com_google_devtools_build_lib_hash_Blake3JNI_blake3_1hasher_1init_1and_1flush_1and_1finalize
          lib
          (Java_com_google_devtools_build_lib_hash_Blake3JNI_blake3_1take_1arrays s0 byteBuffer
            hashBuffer)
          (S.length : Int) (out_len : Int) = some (s1, handle) ∧
        handle ≠ 0 ∧
        region s1 s1.output = some r ∧
        r.take out_len =
          blake3_hasher_finalize lib (blake3_hasher_update blake3_hasher_init S) out_len := by
  obtain ⟨s1, e1, l1, k1, i1, o1, d1⟩ :=
    init_or_reset_spec
      (Java_com_google_devtools_build_lib_hash_Blake3JNI_blake3_1take_1arrays s0 byteBuffer
        hashBuffer) blake3_hasher_init
      (by
        rcases hh with h | ⟨a, ha⟩
        · exact Or.inl ⟨h, rfl⟩
        · exact Or.inr ⟨_, ha, rfl⟩)
  have hreg : region s1 s1.input = some (S ++ rest) := by
    rw [i1, region_congr d1]
    exact hS
  have hsz : to_size_t (S.length : Int) = S.length := to_size_t_natCast _ (by omega)
  have hsz2 : to_size_t (out_len : Int) = out_len := to_size_t_natCast _ (by omega)
  have hupd : ∃ s2, (if (S.length : Int) > 0 then
        call_update s1 s1.hasher (region s1 s1.input) (to_size_t (S.length : Int))
      else some s1) = some s2 ∧
      load s2.heap s2.hasher = some (blake3_hasher_update blake3_hasher_init S) ∧
      s2.hasher = s1.hasher ∧ s2.output = s1.output ∧ s2.direct = s1.direct := by
    by_cases hpos : (S.length : Int) > 0
    · obtain ⟨s2, e2, l2, p2, _, o2, d2⟩ :=
        call_update_spec (s := s1) (m := region s1 s1.input) (n := to_size_t (S.length : Int))
          l1 (by rw [hreg, hsz]; exact read_bytes_prefix S rest)
      refine ⟨s2, ?_, ?_, p2, o2, d2⟩
      · simp only [hpos, if_true, e2]
      · rw [p2]; exact l2
    · have hz : S = [] := by
        have : S.length = 0 := by omega
        exact List.length_eq_zero.mp this
      refine ⟨s1, ?_, ?_, rfl, rfl, rfl⟩
      · simp only [hpos, if_false]
      · rw [l1, hz]; simp [blake3_hasher_update, blake3_hasher_init]
  obtain ⟨s2, e2, l2, p2, o2, d2⟩ := hupd
  have hr2 : region s2 s2.output = some out0 := by
    rw [o2, o1, region_congr (d2.trans d1)]
    exact hO
  obtain ⟨s3, e3, _, p3, _, _, r3, _, _⟩ :=
    call_finalize_spec lib (s := s2) (n := out_len) l2 hr2 hfit
  refine ⟨s3, s3.hasher,
    blake3_hasher_finalize lib (blake3_hasher_update blake3_hasher_init S) out_len ++
      out0.drop out_len, ?_, ?_, r3, ?_⟩
  · simp only [Java_com_google_devtools_build_lib_hash_Blake3JNI_blake3_1hasher_1init_1and_1flush_1and_1finalize,
      e1, Option.some_bind, e2, hsz2, e3, Option.map_some']
  · rw [p3, p2]
    exact load_ne_zero l1
  · exact take_finalize_append lib _ _ _

/-- Witness of C1: the buffer `[1, 2, 3, 4]`, of which three bytes are hashed into four
output bytes by a process without a hasher. -/
theorem one_shot_pass_through_witness :
    ∃ s1 handle r,
      Java_com_google_devtools_build_lib_hash_Blake3JNI_blake3_1hasher_1init_1and_1flush_1and_1finalize
          sumXof
          (Java_com_google_devtools_build_lib_hash_Blake3JNI_blake3_1take_1arrays
            (State.start [[1, 2, 3, 4], [9, 9, 9, 9, 9]])
            { block := 0, offset := 0, capacity := 4 }
            { block := 1, offset := 0, capacity := 5 })
          (([1, 2, 3] : List Byte).length : Int) ((4 : Nat) : Int) = some (s1, handle) ∧
        handle ≠ 0 ∧
        region s1 s1.output = some r ∧
        r.take 4 =
          blake3_hasher_finalize sumXof (blake3_hasher_update blake3_hasher_init [1, 2, 3]) 4 :=
  one_shot_pass_through sumXof (State.start [[1, 2, 3, 4], [9, 9, 9, 9, 9]])
    { block := 0, offset := 0, capacity := 4 } { block := 1, offset := 0, capacity := 5 }
    [1, 2, 3] [4] [9, 9, 9, 9, 9] 4 (by decide) (by decide) (by decide) (by decide) (by decide)
    (Or.inl (by decide))

/-- C3 (reset idempotence): from a process without a hasher, the run
`init; update(S1); finalize(L); init; update(S2); finalize(L)` and the run
`init; update(S2); finalize(L)` both complete, return the same handle, and leave the same
`L` output bytes, namely the library's default-mode output for `S2`; the hasher state is
the same as well. -/
theorem reset_idempotence (lib : Blake3) (s : State) (S1 S2 : List Byte) (L : Nat)
    (r : List Byte) (hnull : s.hasher = 0)
    (hS1 : S1.length < 2 ^ 31) (hS2 : S2.length < 2 ^ 31) (hL : L < 2 ^ 31)
    (hr : region s s.output = some r) (hfit : L ≤ r.length) :
    ∃ sA sB handle rA rB,
      (init_update_finalize lib s S1 L).bind (fun x => init_update_finalize lib x.1 S2 L) =
          some (sA, handle) ∧
        init_update_finalize lib s S2 L = some (sB, handle) ∧
        region sA sA.output = some rA ∧ region sB sB.output = some rB ∧
        rA.take L = rB.take L ∧
        rB.take L = blake3_hasher_finalize lib (blake3_hasher_update blake3_hasher_init S2) L ∧
        load sA.heap handle = load sB.heap handle := by
  obtain ⟨a1, ea1, la1, ka1, _, _, ra1⟩ :=
    init_update_finalize_spec lib s blake3_hasher_init S1 L r (Or.inl ⟨hnull, rfl⟩) hS1 hL hr
      hfit
  obtain ⟨a2, ea2, la2, ka2, _, _, ra2⟩ :=
    init_update_finalize_spec lib a1 blake3_hasher_init S2 L _
      (Or.inr ⟨_, la1, rfl⟩) hS2 hL ra1 (by simp [finalize_length])
  obtain ⟨b, eb, lb, kb, _, _, rb⟩ :=
    init_update_finalize_spec lib s blake3_hasher_init S2 L r (Or.inl ⟨hnull, rfl⟩) hS2 hL hr
      hfit
  have hab : a2.hasher = b.hasher := by
    rw [ka2, if_neg (load_ne_zero la1), ka1, kb]
  refine ⟨a2, b, a2.hasher, _, _, ?_, ?_, ra2, rb, ?_, ?_, ?_⟩
  · rw [ea1]; exact ea2
  · rw [hab]; exact eb
  · rw [take_finalize_append, take_finalize_append]
  · rw [take_finalize_append]
  · rw [la2, hab, lb]

/-- Witness of C3: the inputs `[7, 7]` and `[5]` hashed into two output bytes. -/
theorem reset_idempotence_witness :
    ∃ sA sB handle rA rB,
      (init_update_finalize sumXof demo [7, 7] 2).bind
          (fun x => init_update_finalize sumXof x.1 [5] 2) = some (sA, handle) ∧
        init_update_finalize sumXof demo [5] 2 = some (sB, handle) ∧
        region sA sA.output = some rA ∧ region sB sB.output = some rB ∧
        rA.take 2 = rB.take 2 ∧
        rB.take 2 = blake3_hasher_finalize sumXof (blake3_hasher_update blake3_hasher_init [5]) 2 ∧
        load sA.heap handle = load sB.heap handle :=
  reset_idempotence sumXof demo [7, 7] [5] 2 [9, 9, 9, 9, 9] (by decide) (by decide)
    (by decide) (by decide) (by decide) (by decide)

theorem init_or_reset_none {s : State} (hne : s.hasher ≠ 0) (hl : load s.heap s.hasher = none) :
    init_or_reset s = none := by
  simp [init_or_reset, hne, call_reset, hl]

theorem call_update_none {s : State} {p : Nat} (hl : load s.heap p = none)
    (src : Option (List Byte)) (n : Nat) : call_update s p src n = none := by
  simp [call_update, hl]

theorem call_finalize_none (lib : Blake3) {s : State} {p : Nat} (hl : load s.heap p = none)
    (n : Nat) : call_finalize lib s p n = none := by
  simp [call_finalize, hl]

/-- C2 (what the code does): when the hasher is in keyed or derive-key mode,
`blake3_hasher_init` takes the reset branch, which keeps the key; the following
`update(S); finalize(L)` writes the library's keyed-mode (respectively derive-key-mode)
output for `S`, not the default-mode output. -/
theorem init_after_keyed_keeps_the_key (lib : Blake3) (s : State) (key context S : List Byte)
    (L : Nat) (r : List Byte) (hlive : ∃ h, load s.heap s.hasher = some h)
    (hk : key.length = BLAKE3_KEY_LEN)
    (hS : S.length < 2 ^ 31) (hL : L < 2 ^ 31)
    (hr : region s s.output = some r) (hfit : L ≤ r.length) :
    (∃ s3 r3,
      (Java_com_google_devtools_build_lib_hash_Blake3JNI_blake3_1hasher_1init_1keyed s s.hasher
          key).bind (fun s1 => init_update_finalize lib s1 S L) = some (s3, s.hasher) ∧
        region s3 s3.output = some r3 ∧
        r3.take L =
          blake3_hasher_finalize lib (blake3_hasher_update (blake3_hasher_init_keyed key) S) L) ∧
    (∃ s3 r3,
      (Java_com_google_devtools_build_lib_hash_Blake3JNI_blake3_1hasher_1init_1derive_1key s
          s.hasher context).bind (fun s1 => init_update_finalize lib s1 S L) =
          some (s3, s.hasher) ∧
        region s3 s3.output = some r3 ∧
        r3.take L =
          blake3_hasher_finalize lib
            (blake3_hasher_update (blake3_hasher_init_derive_key context) S) L) := by
  obtain ⟨h, hl⟩ := hlive
  have hne := load_ne_zero hl
  constructor
  · obtain ⟨s3, e3, _, k3, _, _, r3⟩ :=
      init_update_finalize_spec lib
        { s with heap := s.heap.set (s.hasher - 1) (Cell.live (blake3_hasher_init_keyed key)) }
        (blake3_hasher_init_keyed key) S L r
        (Or.inr ⟨_, load_set_of_load hl _, rfl⟩) hS hL hr hfit
    have k3' : s3.hasher = s.hasher := by rw [k3]; exact if_neg hne
    refine ⟨s3, _, ?_, r3, take_finalize_append lib _ _ _⟩
    simp only [Java_com_google_devtools_build_lib_hash_Blake3JNI_blake3_1hasher_1init_1keyed,
      get_byte_array, hasher_ptr, hk, le_refl, if_true, store_of_load hl, Option.map_some',
      Option.some_bind, e3, k3']
  · obtain ⟨s3, e3, _, k3, _, _, r3⟩ :=
      init_update_finalize_spec lib
        { s with heap :=
            s.heap.set (s.hasher - 1) (Cell.live (blake3_hasher_init_derive_key context)) }
        (blake3_hasher_init_derive_key context) S L r
        (Or.inr ⟨_, load_set_of_load hl _, rfl⟩) hS hL hr hfit
    have k3' : s3.hasher = s.hasher := by rw [k3]; exact if_neg hne
    refine ⟨s3, _, ?_, r3, take_finalize_append lib _ _ _⟩
    simp only [Java_com_google_devtools_build_lib_hash_Blake3JNI_blake3_1hasher_1init_1derive_1key,
      hasher_ptr, store_of_load hl, Option.map_some', Option.some_bind, e3, k3']

/-- Instance of C2: with a key of thirty-two bytes `1` and the input `[5]`, the run writes
the keyed-mode output, and for the output function `sumXof` those bytes differ from the
default-mode output that the claim promises. -/
theorem init_after_keyed_keeps_the_key_witness :
    ((∃ s3 r3,
      (Java_com_google_devtools_build_lib_hash_Blake3JNI_blake3_1hasher_1init_1keyed demo_live
          demo_live.hasher (List.replicate 32 1)).bind
            (fun s1 => init_update_finalize sumXof s1 [5] 2) = some (s3, demo_live.hasher) ∧
        region s3 s3.output = some r3 ∧
        r3.take 2 =
          blake3_hasher_finalize sumXof
            (blake3_hasher_update (blake3_hasher_init_keyed (List.replicate 32 1)) [5]) 2) ∧
    (∃ s3 r3,
      (Java_com_google_devtools_build_lib_hash_Blake3JNI_blake3_1hasher_1init_1derive_1key
          demo_live demo_live.hasher [3]).bind
            (fun s1 => init_update_finalize sumXof s1 [5] 2) = some (s3, demo_live.hasher) ∧
        region s3 s3.output = some r3 ∧
        r3.take 2 =
          blake3_hasher_finalize sumXof
            (blake3_hasher_update (blake3_hasher_init_derive_key [3]) [5]) 2)) ∧
    blake3_hasher_finalize sumXof
        (blake3_hasher_update (blake3_hasher_init_keyed (List.replicate 32 1)) [5]) 2 ≠
      blake3_hasher_finalize sumXof (blake3_hasher_update blake3_hasher_init [5]) 2 :=
  ⟨init_after_keyed_keeps_the_key sumXof demo_live (List.replicate 32 1) [3] [5] 2
      [9, 9, 9, 9, 9] ⟨blake3_hasher_init, by decide⟩ (by decide) (by decide) (by decide)
      (by decide) (by decide),
    by decide⟩
/-- C4 (what the code does): in a process without a hasher `allocate_hasher` returns a
non-null handle to an object made by `new blake3_hasher` on which no library
initialisation has run, so `blake3_hasher_update` and `blake3_hasher_finalize` on it are
undefined; `blake3_hasher_init` from the same state returns the same handle with the
library's initial default-mode state. -/
theorem allocate_hasher_does_not_initialise (lib : Blake3) (s : State) (hnull : s.hasher = 0) :
    ∃ s1 handle,
      Java_com_google_devtools_build_lib_hash_Blake3JNI_allocate_1hasher s = some (s1, handle) ∧
        handle ≠ 0 ∧ s1.hasher = handle ∧ s1.heap[handle - 1]? = some Cell.uninit ∧
        (∀ S n, Java_com_google_devtools_build_lib_hash_Blake3JNI_blake3_1hasher_1update s1 S n =
          none) ∧
        (∀ L, Java_com_google_devtools_build_lib_hash_Blake3JNI_blake3_1hasher_1finalize lib s1
          handle L = none) ∧
        ∃ t, Java_com_google_devtools_build_lib_hash_Blake3JNI_blake3_1hasher_1init s =
            some (t, handle) ∧
          load t.heap handle = some blake3_hasher_init := by
  have hl : load (s.heap ++ [Cell.uninit]) (s.heap.length + 1) = none := by simp [load]
  refine ⟨{ s with hasher := s.heap.length + 1, heap := s.heap ++ [Cell.uninit] },
    s.heap.length + 1, ?_, by omega, rfl, by simp, ?_, ?_, ?_⟩
  · simp [Java_com_google_devtools_build_lib_hash_Blake3JNI_allocate_1hasher, hnull, new_hasher]
  · intro S n
    exact call_update_none hl _ _
  · intro L
    exact call_finalize_none lib hl _
  · refine ⟨{ s with hasher := s.heap.length + 1,
                     heap := s.heap ++ [Cell.live blake3_hasher_init] }, ?_,
      load_append_live s.heap _⟩
    simp [Java_com_google_devtools_build_lib_hash_Blake3JNI_blake3_1hasher_1init,
      init_or_reset_null hnull]

/-- Instance of C4 at a process that has made no call yet. -/
theorem allocate_hasher_does_not_initialise_witness :
    ∃ s1 handle,
      Java_com_google_devtools_build_lib_hash_Blake3JNI_allocate_1hasher demo =
          some (s1, handle) ∧
        handle ≠ 0 ∧ s1.hasher = handle ∧ s1.heap[handle - 1]? = some Cell.uninit ∧
        (∀ S n, Java_com_google_devtools_build_lib_hash_Blake3JNI_blake3_1hasher_1update s1 S n =
          none) ∧
        (∀ L, Java_com_google_devtools_build_lib_hash_Blake3JNI_blake3_1hasher_1finalize sumXof
          s1 handle L = none) ∧
        ∃ t, Java_com_google_devtools_build_lib_hash_Blake3JNI_blake3_1hasher_1init demo =
            some (t, handle) ∧
          load t.heap handle = some blake3_hasher_init :=
  allocate_hasher_does_not_initialise sumXof demo (by decide)

/-- C5 (what the code does): `delete_hasher(handle)` destroys the hasher and leaves the
file-scope pointer `hasher` pointing at it, so the pointer is neither null nor live, and
every later `blake3_hasher_init`, `blake3_hasher_update` or fused call hands the
destroyed object to the library. -/
theorem delete_hasher_leaves_dangling_pointer (lib : Blake3) (s : State)
    (hnull : s.hasher = 0) :
    ∃ s1 handle s2,
      Java_com_google_devtools_build_lib_hash_Blake3JNI_blake3_1hasher_1init s =
          some (s1, handle) ∧
        Java_com_google_devtools_build_lib_hash_Blake3JNI_delete_1hasher s1 handle = some s2 ∧
        s2.hasher = handle ∧ handle ≠ 0 ∧ s2.heap[handle - 1]? = some Cell.freed ∧
        Java_com_google_devtools_build_lib_hash_Blake3JNI_blake3_1hasher_1init s2 = none ∧
        (∀ S n, Java_com_google_devtools_build_lib_hash_Blake3JNI_blake3_1hasher_1update s2 S n =
          none) ∧
        (∀ off n,
          Java_com_google_devtools_build_lib_hash_Blake3JNI_blake3_1hasher_1init_1and_1flush s2
            off n = none) ∧
        ∀ n L,
          Java_com_google_devtools_build_lib_hash_Blake3JNI_blake3_1hasher_1init_1and_1flush_1and_1finalize
            lib s2 n L = none := by
  have hl : load (s.heap ++ [Cell.freed]) (s.heap.length + 1) = none := by simp [load]
  have hne : s.heap.length + 1 ≠ 0 := by omega
  have hnone : init_or_reset
      { s with hasher := s.heap.length + 1, heap := s.heap ++ [Cell.freed] } = none :=
    init_or_reset_none hne hl
  refine ⟨{ s with hasher := s.heap.length + 1,
                   heap := s.heap ++ [Cell.live blake3_hasher_init] },
    s.heap.length + 1,
    { s with hasher := s.heap.length + 1, heap := s.heap ++ [Cell.freed] },
    ?_, ?_, rfl, hne, by simp, ?_, ?_, ?_, ?_⟩
  · simp [Java_com_google_devtools_build_lib_hash_Blake3JNI_blake3_1hasher_1init,
      init_or_reset_null hnull]
  · simp [Java_com_google_devtools_build_lib_hash_Blake3JNI_delete_1hasher, hasher_ptr,
      delete_ptr]
  · simp [Java_com_google_devtools_build_lib_hash_Blake3JNI_blake3_1hasher_1init, hnone]
  · intro S n
    exact call_update_none hl _ _
  · intro off n
    simp [Java_com_google_devtools_build_lib_hash_Blake3JNI_blake3_1hasher_1init_1and_1flush,
      hnone]
  · intro n L
    simp [Java_com_google_devtools_build_lib_hash_Blake3JNI_blake3_1hasher_1init_1and_1flush_1and_1finalize,
      hnone]

/-- Instance of C5 at a process that has made no call yet. -/
theorem delete_hasher_leaves_dangling_pointer_witness :
    ∃ s1 handle s2,
      Java_com_google_devtools_build_lib_hash_Blake3JNI_blake3_1hasher_1init demo =
          some (s1, handle) ∧
        Java_com_google_devtools_build_lib_hash_Blake3JNI_delete_1hasher s1 handle = some s2 ∧
        s2.hasher = handle ∧ handle ≠ 0 ∧ s2.heap[handle - 1]? = some Cell.freed ∧
        Java_com_google_devtools_build_lib_hash_Blake3JNI_blake3_1hasher_1init s2 = none ∧
        (∀ S n, Java_com_google_devtools_build_lib_hash_Blake3JNI_blake3_1hasher_1update s2 S n =
          none) ∧
        (∀ off n,
          Java_com_google_devtools_build_lib_hash_Blake3JNI_blake3_1hasher_1init_1and_1flush s2
            off n = none) ∧
        ∀ n L,
          Java_com_google_devtools_build_lib_hash_Blake3JNI_blake3_1hasher_1init_1and_1flush_1and_1finalize
            sumXof s2 n L = none :=
  delete_hasher_leaves_dangling_pointer sumXof demo (by decide)

theorem init_or_reset_frame {s s1 : State} (h : init_or_reset s = some s1) :
    s1.input = s.input ∧ s1.output = s.output ∧ s1.direct = s.direct := by
  unfold init_or_reset at h
  split at h
  · simp only [call_init, Option.map_eq_some'] at h
    obtain ⟨heap, _, rfl⟩ := h
    exact ⟨rfl, rfl, rfl⟩
  · simp only [call_reset, Option.bind_eq_some, Option.map_eq_some'] at h
    obtain ⟨_, _, heap, _, rfl⟩ := h
    exact ⟨rfl, rfl, rfl⟩

theorem call_update_frame {s s1 : State} {p : Nat} {src : Option (List Byte)} {n : Nat}
    (h : call_update s p src n = some s1) :
    s1.hasher = s.hasher ∧ s1.input = s.input ∧ s1.output = s.output ∧ s1.direct = s.direct := by
  simp only [call_update, Option.bind_eq_some, Option.map_eq_some'] at h
  obtain ⟨_, _, _, _, heap, _, rfl⟩ := h
  exact ⟨rfl, rfl, rfl, rfl⟩

theorem call_finalize_frame {lib : Blake3} {s s1 : State} {p n : Nat}
    (h : call_finalize lib s p n = some s1) :
    s1.hasher = s.hasher ∧ s1.heap = s.heap ∧ s1.input = s.input ∧ s1.output = s.output := by
  simp only [call_finalize, Option.bind_eq_some] at h
  obtain ⟨_, _, h⟩ := h
  split at h
  · cases h
    exact ⟨rfl, rfl, rfl, rfl⟩
  · split at h
    · simp at h
    · simp only [Option.bind_eq_some, Option.map_eq_some'] at h
      obtain ⟨_, _, _, _, rfl⟩ := h
      exact ⟨rfl, rfl, rfl, rfl⟩

theorem call_update_zero (s : State) (p : Nat) (src : Option (List Byte)) :
    call_update s p src 0 = (load s.heap p).map (fun _ => s) := by
  cases hl : load s.heap p with
  | none => simp [call_update, hl]
  | some h =>
    have hu : blake3_hasher_update h [] = h := by simp [blake3_hasher_update]
    simp [call_update, hl, read_bytes, hu, store_of_load hl, set_same_of_load hl]

theorem call_update_congr (s : State) (p : Nat) {src src1 : Option (List Byte)} {n : Nat}
    (h : read_bytes src n = read_bytes src1 n) :
    call_update s p src n = call_update s p src1 n := by
  simp only [call_update, h]

theorem finalize_pair_congr (lib : Blake3) (s : State) (n : Nat) :
    (call_finalize lib s s.hasher n).map (fun s3 => (s3, s3.hasher)) =
      (call_finalize lib s s.hasher n).map (fun s3 => (s3, s.hasher)) := by
  cases hf : call_finalize lib s s.hasher n with
  | none => rfl
  | some s3 =>
    simp only [Option.map_some', (call_finalize_frame hf).1]

/-- C6 (fused operations equal their step-wise composition): with `S` at the start of the
registered input buffer, `blake3_hasher_init_and_flush_and_finalize(|S|, L)` has exactly
the result (handle returned and whole state, or the same undefinedness) of
`blake3_hasher_init; blake3_hasher_update(S, |S|); blake3_hasher_finalize(handle, L)`, and
`blake3_hasher_flush_and_finalize(handle, S, |S|, L)` that of
`blake3_hasher_update(S, |S|); blake3_hasher_finalize(handle, L)`, for the handle the
binding hands out, which is the value of `hasher`. -/
theorem fused_eq_stepwise (lib : Blake3) (s : State) (S rest : List Byte) (L : Nat)
    (hS : region s s.input = some (S ++ rest))
    (hlen : S.length < 2 ^ 31) :
    Java_com_google_devtools_build_lib_hash_Blake3JNI_blake3_1hasher_1init_1and_1flush_1and_1finalize
        lib s (S.length : Int) (L : Int) = init_update_finalize lib s S L ∧
      Java_com_google_devtools_build_lib_hash_Blake3JNI_blake3_1hasher_1flush_1and_1finalize
        lib s s.hasher S (S.length : Int) (L : Int) = update_finalize lib s s.hasher S L := by
  have hsz : to_size_t (S.length : Int) = S.length := to_size_t_natCast _ (by omega)
  constructor
  · simp only [Java_com_google_devtools_build_lib_hash_Blake3JNI_blake3_1hasher_1init_1and_1flush_1and_1finalize,
      init_update_finalize,
      Java_com_google_devtools_build_lib_hash_Blake3JNI_blake3_1hasher_1init,
      Java_com_google_devtools_build_lib_hash_Blake3JNI_blake3_1hasher_1update,
      Java_com_google_devtools_build_lib_hash_Blake3JNI_blake3_1hasher_1finalize,
      get_byte_array, hasher_ptr, hsz]
    cases h1 : init_or_reset s with
    | none => rfl
    | some s1 =>
      obtain ⟨i1, _, d1⟩ := init_or_reset_frame h1
      simp only [Option.some_bind, Option.map_some']
      have hreg : region s1 s1.input = some (S ++ rest) := by
        rw [i1, region_congr d1]
        exact hS
      by_cases hpos : (S.length : Int) > 0
      · simp only [hpos, if_true]
        rw [call_update_congr s1 s1.hasher
          (show read_bytes (region s1 s1.input) S.length = read_bytes (some S) S.length by
            rw [hreg, read_bytes_prefix, read_bytes_all])]
        cases h2 : call_update s1 s1.hasher (some S) S.length with
        | none => rfl
        | some s2 =>
          simp only [Option.some_bind]
          rw [finalize_pair_congr, (call_update_frame h2).1]
      · have hz : S.length = 0 := by omega
        simp only [hpos, if_false, Option.some_bind, hz, call_update_zero]
        cases h2 : load s1.heap s1.hasher with
        | none => simp [call_finalize_none lib h2]
        | some h => simp only [ite_self, Option.map_some', Option.some_bind, finalize_pair_congr]
  · simp only [Java_com_google_devtools_build_lib_hash_Blake3JNI_blake3_1hasher_1flush_1and_1finalize,
      update_finalize,
      Java_com_google_devtools_build_lib_hash_Blake3JNI_blake3_1hasher_1update,
      Java_com_google_devtools_build_lib_hash_Blake3JNI_blake3_1hasher_1finalize,
      get_byte_array, hasher_ptr, hsz]
    by_cases hpos : (S.length : Int) > 0
    · simp only [hpos, if_true]
    · have hz : S.length = 0 := by omega
      simp only [hpos, if_false, Option.some_bind, hz, call_update_zero]
      cases h2 : load s.heap s.hasher with
      | none => simp [call_finalize_none lib h2]
      | some h => simp only [ite_self, Option.map_some', Option.some_bind]

/-- Witness of C6: three bytes of the input buffer hashed into four output bytes by a
process whose hasher exists; all four runs complete. -/
theorem fused_eq_stepwise_witness :
    (Java_com_google_devtools_build_lib_hash_Blake3JNI_blake3_1hasher_1init_1and_1flush_1and_1finalize
        sumXof demo_live (([1, 2, 3] : List Byte).length : Int) ((4 : Nat) : Int) =
          init_update_finalize sumXof demo_live [1, 2, 3] 4 ∧
      Java_com_google_devtools_build_lib_hash_Blake3JNI_blake3_1hasher_1flush_1and_1finalize
        sumXof demo_live demo_live.hasher [1, 2, 3] (([1, 2, 3] : List Byte).length : Int)
          ((4 : Nat) : Int) = update_finalize sumXof demo_live demo_live.hasher [1, 2, 3] 4) ∧
    (init_update_finalize sumXof demo_live [1, 2, 3] 4).isSome = true ∧
    (update_finalize sumXof demo_live demo_live.hasher [1, 2, 3] 4).isSome = true :=
  ⟨fused_eq_stepwise sumXof demo_live [1, 2, 3] [4] 4 (by decide) (by decide), by decide,
    by decide⟩

/-- C7 (as stated, refuted): a buffer `b` is registered as output and the slice of `b`
from byte `1` as input, two different buffers; `blake3_hasher_finalize(handle, 2)` then
changes the input region, which held `[2, 3]` before the call and holds `[1, 3]` after
it. -/
theorem finalize_overwrites_aliased_input :
    aliased.input ≠ aliased.output ∧
      region aliased aliased.input = some [2, 3] ∧
      ((Java_com_google_devtools_build_lib_hash_Blake3JNI_blake3_1hasher_1init aliased).bind
        (fun x =>
          Java_com_google_devtools_build_lib_hash_Blake3JNI_blake3_1hasher_1finalize sumXof x.1
            x.2 2)).map (fun s1 => region s1 s1.input) = some (some [1, 3]) := by
  decide

/-- C7 (amended): for a valid handle and `L` bytes available at the output address,
`blake3_hasher_finalize(handle, L)` replaces bytes `[0, L)` of the output region with the
first `L` bytes of the library's extended output for the hasher state and leaves the bytes
of the region from `L` on, the hasher state, both buffer pointers and every byte of memory
that is not one of the `L` bytes written unchanged; so an input region of `K` bytes none
of which is among the bytes written is unchanged.  (`r` is the memory from the output
address to the end of its allocation, of which the output buffer is a prefix.) -/
theorem finalize_writes_exactly_L_bytes (lib : Blake3) (s : State) (handle : Nat)
    (h : blake3_hasher) (L : Nat) (r : List Byte)
    (hl : load s.heap handle = some h) (hr : region s s.output = some r)
    (hL : L < 2 ^ 31) (hfit : L ≤ r.length) :
    ∃ s1 r1,
      Java_com_google_devtools_build_lib_hash_Blake3JNI_blake3_1hasher_1finalize lib s handle
          (L : Int) = some s1 ∧
        region s1 s1.output = some r1 ∧ r1.length = r.length ∧
        r1.take L = blake3_hasher_finalize lib h L ∧ r1.drop L = r.drop L ∧
        s1.heap = s.heap ∧ s1.hasher = s.hasher ∧ s1.input = s.input ∧ s1.output = s.output ∧
        (∀ b j : Nat,
          (∀ o, s.output = some o → ¬ (b = o.block ∧ o.offset ≤ j ∧ j < o.offset + L)) →
          byte_at s1 b j = byte_at s b j) ∧
        (∀ (i o : Addr) (K : Nat), s.input = some i → s.output = some o →
          (∀ j, i.offset ≤ j → j < i.offset + K →
            ¬ (i.block = o.block ∧ o.offset ≤ j ∧ j < o.offset + L)) →
          (region s1 s1.input).map (List.take K) = (region s s.input).map (List.take K)) := by
  have hsz : to_size_t (L : Int) = L := to_size_t_natCast _ (by omega)
  obtain ⟨s1, e1, hp1, p1, i1, o1, r1, hbytes, hlens⟩ :=
    call_finalize_spec lib (n := L) hl hr hfit
  refine ⟨s1, _, ?_, r1, ?_, take_finalize_append lib _ _ _,
    drop_finalize_append lib _ _ _, hp1, p1, i1, o1, hbytes, ?_⟩
  · simp only [Java_com_google_devtools_build_lib_hash_Blake3JNI_blake3_1hasher_1finalize,
      hasher_ptr, hsz, e1]
  · simp [finalize_length, hfit]
  · intro i o K hi ho hdisj
    rw [i1, hi]
    apply region_take_eq (hlens i.block)
    intro j hj1 hj2
    apply hbytes
    intro o2 ho2
    have : o2 = o := by
      rw [ho] at ho2
      exact (Option.some.inj ho2).symm
    subst this
    exact hdisj j hj1 hj2

/-- Witness of C7 (amended): input and output are adjacent slices of one allocation
holding `[1, 2, 3, 4]`; two bytes are written at the output address, and the two-byte
input region, `[3, 4]`, is the same after the call. -/
theorem finalize_writes_exactly_L_bytes_witness :
    (∃ s1 r1,
      Java_com_google_devtools_build_lib_hash_Blake3JNI_blake3_1hasher_1finalize sumXof
          sliced 1 ((2 : Nat) : Int) = some s1 ∧
        region s1 s1.output = some r1 ∧ r1.length = ([1, 2, 3, 4] : List Byte).length ∧
        r1.take 2 = blake3_hasher_finalize sumXof blake3_hasher_init 2 ∧
        r1.drop 2 = ([1, 2, 3, 4] : List Byte).drop 2 ∧
        s1.heap = sliced.heap ∧ s1.hasher = sliced.hasher ∧
        s1.input = sliced.input ∧ s1.output = sliced.output ∧
        (∀ b j : Nat,
          (∀ o, sliced.output = some o → ¬ (b = o.block ∧ o.offset ≤ j ∧ j < o.offset + 2)) →
          byte_at s1 b j = byte_at sliced b j) ∧
        (∀ (i o : Addr) (K : Nat), sliced.input = some i → sliced.output = some o →
          (∀ j, i.offset ≤ j → j < i.offset + K →
            ¬ (i.block = o.block ∧ o.offset ≤ j ∧ j < o.offset + 2)) →
          (region s1 s1.input).map (List.take K) =
            (region sliced sliced.input).map (List.take K))) ∧
    region sliced sliced.input = some [3, 4] ∧
    (Java_com_google_devtools_build_lib_hash_Blake3JNI_blake3_1hasher_1finalize sumXof sliced 1
        ((2 : Nat) : Int)).map (fun s1 => (region s1 s1.input, region s1 s1.output)) =
      some (some [3, 4], some [0, 1, 3, 4]) :=
  ⟨finalize_writes_exactly_L_bytes sumXof sliced 1 blake3_hasher_init 2 [1, 2, 3, 4]
      (by decide) (by decide) (by decide) (by decide),
    by decide, by decide⟩

theorem finalize_seek_eq_drop (lib : Blake3) (h : blake3_hasher) (K M : Nat) :
    blake3_hasher_finalize_seek lib h K M = (blake3_hasher_finalize lib h (K + M)).drop K := by
  apply List.ext_getElem?
  intro j
  simp only [blake3_hasher_finalize, blake3_hasher_finalize_seek, List.getElem?_drop,
    List.getElem?_map, List.getElem?_range, Nat.zero_add]
  by_cases hj : j < M
  · have h2 : K + j < K + M := by omega
    simp [List.getElem?_range, hj, h2]
  · have h2 : ¬ K + j < K + M := by omega
    rw [List.getElem?_eq_none (by simp; omega), List.getElem?_eq_none (by simp; omega)]
    rfl

theorem finalize_seek_length (lib : Blake3) (h : blake3_hasher) (K M : Nat) :
    (blake3_hasher_finalize_seek lib h K M).length = M := by
  simp [blake3_hasher_finalize_seek]

/-- C8 (seek consistency): for a valid handle, a seek offset `K` and a length `M` that the
array `out` can hold, `blake3_hasher_finalize_seek(handle, K, out, M)` stores in `out` the
bytes `[K, K + M)` of the library's extended output and leaves the rest of `out` and the
state alone; whenever `K + M` is a `jint` and the output buffer holds that many bytes,
these are bytes `[K, K + M)` of what `blake3_hasher_finalize(handle, K + M)` stores in the
output buffer. -/
theorem seek_consistency (lib : Blake3) (s : State) (handle : Nat) (h : blake3_hasher)
    (K M : Nat) (out : List Byte) (hl : load s.heap handle = some h)
    (hK : K < 2 ^ 63) (hM : M < 2 ^ 31) (hout : M ≤ out.length) :
    ∃ out1,
      Java_com_google_devtools_build_lib_hash_Blake3JNI_blake3_1hasher_1finalize_1seek lib s
          handle (K : Int) out (M : Int) = some (s, out1) ∧
        out1.take M = (blake3_hasher_finalize lib h (K + M)).drop K ∧
        out1.drop M = out.drop M ∧
        ∀ r, region s s.output = some r → K + M < 2 ^ 31 → K + M ≤ r.length →
          ∃ s2 r2,
            Java_com_google_devtools_build_lib_hash_Blake3JNI_blake3_1hasher_1finalize lib s
                handle ((K + M : Nat) : Int) = some s2 ∧
              region s2 s2.output = some r2 ∧
              out1.take M = (r2.take (K + M)).drop K := by
  have hszK : to_size_t (K : Int) = K := to_size_t_natCast _ (by omega)
  have hszM : to_size_t (M : Int) = M := to_size_t_natCast _ (by omega)
  have htake : (blake3_hasher_finalize_seek lib h K M ++ out.drop M).take M =
      (blake3_hasher_finalize lib h (K + M)).drop K := by
    rw [List.take_left' (finalize_seek_length lib h K M), finalize_seek_eq_drop]
  refine ⟨blake3_hasher_finalize_seek lib h K M ++ out.drop M, ?_, htake,
    List.drop_left' (finalize_seek_length lib h K M), ?_⟩
  · simp [Java_com_google_devtools_build_lib_hash_Blake3JNI_blake3_1hasher_1finalize_1seek,
      get_byte_array, release_byte_array, hasher_ptr, hl, hszK, hszM, write_bytes, hout]
  · intro r hr hKM hfit
    have hsz : to_size_t ((K + M : Nat) : Int) = K + M := to_size_t_natCast _ (by omega)
    obtain ⟨s2, e2, _, _, _, _, r2, _, _⟩ := call_finalize_spec lib (n := K + M) hl hr hfit
    refine ⟨s2, _, ?_, r2, ?_⟩
    · simp only [Java_com_google_devtools_build_lib_hash_Blake3JNI_blake3_1hasher_1finalize,
        hasher_ptr, hsz, e2]
    · rw [htake, take_finalize_append]

/-- Witness of C8: two bytes at seek offset two against a four-byte finalize. -/
theorem seek_consistency_witness :
    ∃ out1,
      Java_com_google_devtools_build_lib_hash_Blake3JNI_blake3_1hasher_1finalize_1seek sumXof
          demo_live 1 ((2 : Nat) : Int) [7, 7, 7] ((2 : Nat) : Int) = some (demo_live, out1) ∧
        out1.take 2 = (blake3_hasher_finalize sumXof blake3_hasher_init (2 + 2)).drop 2 ∧
        out1.drop 2 = ([7, 7, 7] : List Byte).drop 2 ∧
        ∀ r, region demo_live demo_live.output = some r → 2 + 2 < 2 ^ 31 →
          2 + 2 ≤ r.length →
          ∃ s2 r2,
            Java_com_google_devtools_build_lib_hash_Blake3JNI_blake3_1hasher_1finalize sumXof
                demo_live 1 ((2 + 2 : Nat) : Int) = some s2 ∧
              region s2 s2.output = some r2 ∧
              out1.take 2 = (r2.take (2 + 2)).drop 2 :=
  seek_consistency sumXof demo_live 1 blake3_hasher_init 2 2 [7, 7, 7] (by decide) (by decide)
    (by decide) (by decide)

/-- C9 (what the code does): when `allocate_hasher` is the first call of a process, the
hasher it allocates is never initialised, and each of `allocate_hasher`,
`blake3_hasher_init`, `blake3_hasher_init_and_flush` and
`blake3_hasher_init_and_flush_and_finalize` called next takes the reset branch and hands
that uninitialised object to `blake3_hasher_reset`: the call is undefined instead of
returning the handle with a state fixed by its arguments. -/
theorem reuse_after_allocate_hasher_undefined (lib : Blake3) (s : State)
    (hnull : s.hasher = 0) :
    ∃ s1 handle,
      Java_com_google_devtools_build_lib_hash_Blake3JNI_allocate_1hasher s = some (s1, handle) ∧
        Java_com_google_devtools_build_lib_hash_Blake3JNI_allocate_1hasher s1 = none ∧
        Java_com_google_devtools_build_lib_hash_Blake3JNI_blake3_1hasher_1init s1 = none ∧
        (∀ off n,
          Java_com_google_devtools_build_lib_hash_Blake3JNI_blake3_1hasher_1init_1and_1flush s1
            off n = none) ∧
        ∀ n L,
          Java_com_google_devtools_build_lib_hash_Blake3JNI_blake3_1hasher_1init_1and_1flush_1and_1finalize
            lib s1 n L = none := by
  have hl : load (s.heap ++ [Cell.uninit]) (s.heap.length + 1) = none := by simp [load]
  have hne : s.heap.length + 1 ≠ 0 := by omega
  have hnone : init_or_reset
      { s with hasher := s.heap.length + 1, heap := s.heap ++ [Cell.uninit] } = none :=
    init_or_reset_none hne hl
  refine ⟨{ s with hasher := s.heap.length + 1, heap := s.heap ++ [Cell.uninit] },
    s.heap.length + 1, ?_, ?_, ?_, ?_, ?_⟩
  · simp [Java_com_google_devtools_build_lib_hash_Blake3JNI_allocate_1hasher, hnull, new_hasher]
  · simp [Java_com_google_devtools_build_lib_hash_Blake3JNI_allocate_1hasher, call_reset, hl]
  · simp [Java_com_google_devtools_build_lib_hash_Blake3JNI_blake3_1hasher_1init, hnone]
  · intro off n
    simp [Java_com_google_devtools_build_lib_hash_Blake3JNI_blake3_1hasher_1init_1and_1flush,
      hnone]
  · intro n L
    simp [Java_com_google_devtools_build_lib_hash_Blake3JNI_blake3_1hasher_1init_1and_1flush_1and_1finalize,
      hnone]

/-- Instance of C9 at a process that has made no call yet. -/
theorem reuse_after_allocate_hasher_undefined_witness :
    ∃ s1 handle,
      Java_com_google_devtools_build_lib_hash_Blake3JNI_allocate_1hasher demo =
          some (s1, handle) ∧
        Java_com_google_devtools_build_lib_hash_Blake3JNI_allocate_1hasher s1 = none ∧
        Java_com_google_devtools_build_lib_hash_Blake3JNI_blake3_1hasher_1init s1 = none ∧
        (∀ off n,
          Java_com_google_devtools_build_lib_hash_Blake3JNI_blake3_1hasher_1init_1and_1flush s1
            off n = none) ∧
        ∀ n L,
          Java_com_google_devtools_build_lib_hash_Blake3JNI_blake3_1hasher_1init_1and_1flush_1and_1finalize
            sumXof s1 n L = none :=
  reuse_after_allocate_hasher_undefined sumXof demo (by decide)

/-- C10 (`blake3_hasher_init_and_flush` ignores its offset argument): in every state and for
every length, two calls that differ only in the offset have the same result; and when the
input buffer holds `n` bytes, the call returns the non-null handle of the hasher,
(re)initialised and then fed with bytes `[0, n)` of the input buffer, whatever the
offset. -/
theorem init_and_flush_ignores_offset (s : State) (o1 o2 : Int) (n : Nat) (r : List Byte)
    (h0 : blake3_hasher)
    (hh : (s.hasher = 0 ∧ h0 = blake3_hasher_init) ∨
      (∃ h, load s.heap s.hasher = some h ∧ h0 = blake3_hasher_reset h))
    (hr : region s s.input = some r) (hn : n ≤ r.length)
    (hn31 : n < 2 ^ 31) :
    (∀ (t : State) (a b input_len : Int),
      Java_com_google_devtools_build_lib_hash_Blake3JNI_blake3_1hasher_1init_1and_1flush t a
          input_len =
        Java_com_google_devtools_build_lib_hash_Blake3JNI_blake3_1hasher_1init_1and_1flush t b
          input_len) ∧
    ∃ s1 handle,
      Java_com_google_devtools_build_lib_hash_Blake3JNI_blake3_1hasher_1init_1and_1flush s o1
          (n : Int) = some (s1, handle) ∧
        Java_com_google_devtools_build_lib_hash_Blake3JNI_blake3_1hasher_1init_1and_1flush s o2
          (n : Int) = some (s1, handle) ∧
        handle ≠ 0 ∧ s1.hasher = handle ∧
        load s1.heap handle = some (blake3_hasher_update h0 (r.take n)) := by
  refine ⟨fun _ _ _ _ => rfl, ?_⟩
  have hsz : to_size_t (n : Int) = n := to_size_t_natCast _ (by omega)
  obtain ⟨s1, e1, l1, k1, i1, o1', d1⟩ := init_or_reset_spec s h0 hh
  have hreg : region s1 s1.input = some r := by
    rw [i1, region_congr d1]
    exact hr
  obtain ⟨s2, e2, l2, p2, _, _, _⟩ :=
    call_update_spec (s := s1) (m := region s1 s1.input) (n := n) l1
      (by rw [hreg]; exact read_bytes_take hn)
  have hres : ∀ off : Int,
      Java_com_google_devtools_build_lib_hash_Blake3JNI_blake3_1hasher_1init_1and_1flush s off
        (n : Int) = some (s2, s1.hasher) := by
    intro off
    simp only [Java_com_google_devtools_build_lib_hash_Blake3JNI_blake3_1hasher_1init_1and_1flush,
      e1, Option.some_bind, hsz, e2, Option.map_some', p2]
  exact ⟨s2, s1.hasher, hres o1, hres o2, load_ne_zero l1, p2, l2⟩

/-- Witness of C10: offsets `0` and `2` with length `2` on the buffer `[1, 2, 3, 4]`; the
bytes fed are `[1, 2]`, not the bytes `[3, 4]` found at offset `2`. -/
theorem init_and_flush_ignores_offset_witness :
    ((∀ (t : State) (a b input_len : Int),
      Java_com_google_devtools_build_lib_hash_Blake3JNI_blake3_1hasher_1init_1and_1flush t a
          input_len =
        Java_com_google_devtools_build_lib_hash_Blake3JNI_blake3_1hasher_1init_1and_1flush t b
          input_len) ∧
    ∃ s1 handle,
      Java_com_google_devtools_build_lib_hash_Blake3JNI_blake3_1hasher_1init_1and_1flush demo 0
          ((2 : Nat) : Int) = some (s1, handle) ∧
        Java_com_google_devtools_build_lib_hash_Blake3JNI_blake3_1hasher_1init_1and_1flush demo 2
          ((2 : Nat) : Int) = some (s1, handle) ∧
        handle ≠ 0 ∧ s1.hasher = handle ∧
        load s1.heap handle =
          some (blake3_hasher_update blake3_hasher_init (([1, 2, 3, 4] : List Byte).take 2))) ∧
    ([1, 2, 3, 4] : List Byte).take 2 ≠ (([1, 2, 3, 4] : List Byte).drop 2).take 2 :=
  ⟨init_and_flush_ignores_offset demo 0 2 2 [1, 2, 3, 4] blake3_hasher_init
      (Or.inl ⟨by decide, rfl⟩) (by decide) (by decide) (by decide),
    by decide⟩

/-! ## Supplementary: the handle across sequences of calls -/

theorem store_length {heap heap1 : List Cell} {p : Nat} {h : blake3_hasher}
    (hs : store heap p h = some heap1) : heap1.length = heap.length := by
  cases p with
  | zero => simp [store] at hs
  | succ q =>
    simp only [store] at hs
    split at hs
    · cases hs; simp
    · cases hs; simp
    · simp at hs

theorem delete_ptr_length {heap heap1 : List Cell} {p : Nat}
    (hs : delete_ptr heap p = some heap1) : heap1.length = heap.length := by
  cases p with
  | zero => simp [delete_ptr] at hs
  | succ q =>
    simp only [delete_ptr] at hs
    split at hs
    · cases hs; simp
    · cases hs; simp
    · simp at hs

theorem init_or_reset_hasher {s s1 : State} (h : init_or_reset s = some s1) :
    s1.hasher ≠ 0 ∧ (s.hasher ≠ 0 → s1.hasher = s.hasher ∧ s1.heap.length = s.heap.length) := by
  unfold init_or_reset at h
  split at h
  · rename_i hz
    simp only [call_init, Option.map_eq_some'] at h
    obtain ⟨heap, _, rfl⟩ := h
    exact ⟨by simp [new_hasher], fun hne => absurd hz hne⟩
  · rename_i hz
    simp only [call_reset, Option.bind_eq_some, Option.map_eq_some'] at h
    obtain ⟨_, _, heap, hst, rfl⟩ := h
    exact ⟨hz, fun _ => ⟨rfl, store_length hst⟩⟩

theorem call_update_heap_length {s s1 : State} {p : Nat} {m : Option (List Byte)} {n : Nat}
    (h : call_update s p m n = some s1) : s1.heap.length = s.heap.length := by
  simp only [call_update, Option.bind_eq_some, Option.map_eq_some'] at h
  obtain ⟨_, _, _, _, heap, hst, rfl⟩ := h
  exact store_length hst

/-- A handle returned by an entry point is non-null and is the value of the file-scope
`hasher` after the call. -/
theorem exec_returns_hasher {lib : Blake3} {s s1 : State} {c : Call} {h : Nat}
    (he : exec lib s c = some (s1, some h)) : h = s1.hasher ∧ h ≠ 0 := by
  cases c with
  | allocate_hasher =>
    simp only [exec, Java_com_google_devtools_build_lib_hash_Blake3JNI_allocate_1hasher,
      Option.map_eq_some'] at he
    obtain ⟨r, hr, he⟩ := he
    cases he
    split at hr
    · cases hr
      exact ⟨rfl, by simp [new_hasher]⟩
    · rename_i hz
      simp only [Option.map_eq_some'] at hr
      obtain ⟨s2, h2, rfl⟩ := hr
      refine ⟨rfl, ?_⟩
      simp only [call_reset, Option.bind_eq_some, Option.map_eq_some'] at h2
      obtain ⟨_, _, heap, _, rfl⟩ := h2
      exact hz
  | hasher_init =>
    simp only [exec, Java_com_google_devtools_build_lib_hash_Blake3JNI_blake3_1hasher_1init,
      Option.map_eq_some'] at he
    obtain ⟨r, ⟨s2, h2, rfl⟩, he⟩ := he
    cases he
    exact ⟨rfl, (init_or_reset_hasher h2).1⟩
  | hasher_init_and_flush offset input_len =>
    simp only [exec,
      Java_com_google_devtools_build_lib_hash_Blake3JNI_blake3_1hasher_1init_1and_1flush,
      Option.map_eq_some', Option.bind_eq_some] at he
    obtain ⟨r, ⟨s2, h2, s3, h3, rfl⟩, he⟩ := he
    cases he
    refine ⟨rfl, ?_⟩
    rw [(call_update_frame h3).1]
    exact (init_or_reset_hasher h2).1
  | hasher_init_and_flush_and_finalize input_len out_len =>
    simp only [exec,
      Java_com_google_devtools_build_lib_hash_Blake3JNI_blake3_1hasher_1init_1and_1flush_1and_1finalize,
      Option.map_eq_some', Option.bind_eq_some] at he
    obtain ⟨r, ⟨s2, h2, s3, h3, s4, h4, rfl⟩, he⟩ := he
    cases he
    refine ⟨rfl, ?_⟩
    rw [(call_finalize_frame h4).1]
    have h23 : s3.hasher = s2.hasher := by
      split at h3
      · exact (call_update_frame h3).1
      · cases h3; rfl
    rw [h23]
    exact (init_or_reset_hasher h2).1
  | take_arrays a b => simp [exec] at he
  | trash b => simp [exec] at he
  | delete_hasher self => simp [exec] at he
  | hasher_init_keyed self key => simp [exec] at he
  | hasher_init_derive_key self context => simp [exec] at he
  | hasher_update input_arr input_len => simp [exec] at he
  | hasher_finalize self out_len => simp [exec] at he
  | hasher_finalize_seek self seek out out_len => simp [exec] at he
  | hasher_flush_and_finalize self input_arr input_len out_len => simp [exec] at he

theorem call_finalize_heap_length {lib : Blake3} {s s1 : State} {p n : Nat}
    (h : call_finalize lib s p n = some s1) : s1.heap.length = s.heap.length := by
  rw [(call_finalize_frame h).2.1]

theorem optional_update_frame {s s1 : State} {c : Prop} [Decidable c] {p : Nat}
    {m : Option (List Byte)} {n : Nat}
    (h : (if c then call_update s p m n else some s) = some s1) :
    s1.hasher = s.hasher ∧ s1.heap.length = s.heap.length := by
  split at h
  · exact ⟨(call_update_frame h).1, call_update_heap_length h⟩
  · cases h
    exact ⟨rfl, rfl⟩

/-- Once the file-scope `hasher` is non-null no entry point changes it, and none allocates:
the free store keeps its size. -/
theorem exec_keeps_hasher {lib : Blake3} {s s1 : State} {c : Call} {r : Option Nat}
    (hne : s.hasher ≠ 0) (he : exec lib s c = some (s1, r)) :
    s1.hasher = s.hasher ∧ s1.heap.length = s.heap.length := by
  cases c with
  | take_arrays a b =>
    simp only [exec, Option.some.injEq, Prod.mk.injEq] at he
    obtain ⟨rfl, _⟩ := he
    exact ⟨rfl, rfl⟩
  | trash b =>
    simp only [exec, Java_com_google_devtools_build_lib_hash_Blake3JNI_blake3_1trash,
      Option.some.injEq, Prod.mk.injEq] at he
    obtain ⟨rfl, _⟩ := he
    exact ⟨rfl, rfl⟩
  | allocate_hasher =>
    simp only [exec, Java_com_google_devtools_build_lib_hash_Blake3JNI_allocate_1hasher, hne,
      if_false, Option.map_eq_some', call_reset, Option.bind_eq_some] at he
    obtain ⟨_, ⟨_, ⟨_, _, heap, hst, rfl⟩, rfl⟩, he⟩ := he
    cases he
    exact ⟨rfl, store_length hst⟩
  | delete_hasher self =>
    simp only [exec, Java_com_google_devtools_build_lib_hash_Blake3JNI_delete_1hasher,
      Option.map_eq_some'] at he
    obtain ⟨s2, h2, he⟩ := he
    cases he
    split at h2
    · simp only [Option.map_eq_some'] at h2
      obtain ⟨heap, hd, rfl⟩ := h2
      exact ⟨rfl, delete_ptr_length hd⟩
    · cases h2
      exact ⟨rfl, rfl⟩
  | hasher_init =>
    simp only [exec, Java_com_google_devtools_build_lib_hash_Blake3JNI_blake3_1hasher_1init,
      Option.map_eq_some'] at he
    obtain ⟨_, ⟨s2, h2, rfl⟩, he⟩ := he
    cases he
    exact (init_or_reset_hasher h2).2 hne
  | hasher_init_keyed self key =>
    simp only [exec, Java_com_google_devtools_build_lib_hash_Blake3JNI_blake3_1hasher_1init_1keyed,
      Option.map_eq_some'] at he
    obtain ⟨s2, h2, he⟩ := he
    cases he
    split at h2
    · simp only [Option.map_eq_some'] at h2
      obtain ⟨heap, hst, rfl⟩ := h2
      exact ⟨rfl, store_length hst⟩
    · simp at h2
  | hasher_init_derive_key self context =>
    simp only [exec,
      Java_com_google_devtools_build_lib_hash_Blake3JNI_blake3_1hasher_1init_1derive_1key,
      Option.map_eq_some'] at he
    obtain ⟨s2, ⟨heap, hst, rfl⟩, he⟩ := he
    cases he
    exact ⟨rfl, store_length hst⟩
  | hasher_update input_arr input_len =>
    simp only [exec, Java_com_google_devtools_build_lib_hash_Blake3JNI_blake3_1hasher_1update,
      Option.map_eq_some'] at he
    obtain ⟨s2, h2, he⟩ := he
    cases he
    exact ⟨(call_update_frame h2).1, call_update_heap_length h2⟩
  | hasher_finalize self out_len =>
    simp only [exec, Java_com_google_devtools_build_lib_hash_Blake3JNI_blake3_1hasher_1finalize,
      Option.map_eq_some'] at he
    obtain ⟨s2, h2, he⟩ := he
    cases he
    exact ⟨(call_finalize_frame h2).1, call_finalize_heap_length h2⟩
  | hasher_finalize_seek self seek out out_len =>
    simp only [exec,
      Java_com_google_devtools_build_lib_hash_Blake3JNI_blake3_1hasher_1finalize_1seek,
      Option.map_eq_some', Option.bind_eq_some] at he
    obtain ⟨_, ⟨_, _, _, _, rfl⟩, he⟩ := he
    cases he
    exact ⟨rfl, rfl⟩
  | hasher_init_and_flush offset input_len =>
    simp only [exec,
      Java_com_google_devtools_build_lib_hash_Blake3JNI_blake3_1hasher_1init_1and_1flush,
      Option.map_eq_some', Option.bind_eq_some] at he
    obtain ⟨_, ⟨s2, h2, s3, h3, rfl⟩, he⟩ := he
    cases he
    obtain ⟨k2, n2⟩ := (init_or_reset_hasher h2).2 hne
    exact ⟨(call_update_frame h3).1.trans k2, (call_update_heap_length h3).trans n2⟩
  | hasher_init_and_flush_and_finalize input_len out_len =>
    simp only [exec,
      Java_com_google_devtools_build_lib_hash_Blake3JNI_blake3_1hasher_1init_1and_1flush_1and_1finalize,
      Option.map_eq_some', Option.bind_eq_some] at he
    obtain ⟨_, ⟨s2, h2, s3, h3, s4, h4, rfl⟩, he⟩ := he
    cases he
    obtain ⟨k2, n2⟩ := (init_or_reset_hasher h2).2 hne
    obtain ⟨k3, n3⟩ := optional_update_frame h3
    exact ⟨(call_finalize_frame h4).1.trans (k3.trans k2),
      (call_finalize_heap_length h4).trans (n3.trans n2)⟩
  | hasher_flush_and_finalize self input_arr input_len out_len =>
    simp only [exec,
      Java_com_google_devtools_build_lib_hash_Blake3JNI_blake3_1hasher_1flush_1and_1finalize,
      Option.map_eq_some', Option.bind_eq_some] at he
    obtain ⟨s4, ⟨s3, h3, h4⟩, he⟩ := he
    cases he
    obtain ⟨k3, n3⟩ := optional_update_frame h3
    exact ⟨(call_finalize_frame h4).1.trans k3, (call_finalize_heap_length h4).trans n3⟩

/-- In any sequence of entry-point calls that completes, every handle returned is non-null
and equal to the final value of the file-scope `hasher`; and when the sequence starts with
`hasher` non-null, `hasher` keeps its value and no hasher is allocated. -/
theorem run_handles_constant (lib : Blake3) (cs : List Call) :
    ∀ (s s1 : State) (hs : List Nat), run lib s cs = some (s1, hs) →
      (∀ h ∈ hs, h = s1.hasher ∧ h ≠ 0) ∧
      (s.hasher ≠ 0 → s1.hasher = s.hasher ∧ s1.heap.length = s.heap.length) := by
  induction cs with
  | nil =>
    intro s s1 hs h
    simp only [run, Option.some.injEq, Prod.mk.injEq] at h
    obtain ⟨rfl, rfl⟩ := h
    exact ⟨fun h hh => absurd hh (List.not_mem_nil h), fun _ => ⟨rfl, rfl⟩⟩
  | cons c cs ih =>
    intro s s1 hs h
    simp only [run, Option.bind_eq_some, Option.map_eq_some'] at h
    obtain ⟨⟨s2, r⟩, he, ⟨s3, hs3⟩, hrun, heq⟩ := h
    simp only [Prod.mk.injEq] at heq
    obtain ⟨rfl, rfl⟩ := heq
    obtain ⟨ih1, ih2⟩ := ih s2 s3 hs3 hrun
    constructor
    · intro h hh
      rcases List.mem_append.mp hh with hh | hh
      · cases r with
        | none => simp at hh
        | some h0 =>
          simp only [Option.toList_some, List.mem_singleton] at hh
          subst hh
          obtain ⟨e1, e2⟩ := exec_returns_hasher he
          refine ⟨?_, e2⟩
          rw [(ih2 (e1 ▸ e2)).1]
          exact e1
      · exact ih1 h hh
    · intro hne
      obtain ⟨k, n⟩ := exec_keeps_hasher hne he
      obtain ⟨k2, n2⟩ := ih2 (k ▸ hne)
      exact ⟨k2.trans k, n2.trans n⟩

/-- Reuse of an initialised hasher: `allocate_hasher`, `blake3_hasher_init`,
`blake3_hasher_init_and_flush` and `blake3_hasher_init_and_flush_and_finalize` return the
existing handle, allocate nothing, drop the input absorbed before and leave the hasher in a
state fixed by its mode, the length argument and the input buffer. -/
theorem reuse_resets_in_place (lib : Blake3) (s : State) (h : blake3_hasher)
    (hl : load s.heap s.hasher = some h) :
    (∃ s1, Java_com_google_devtools_build_lib_hash_Blake3JNI_allocate_1hasher s =
        some (s1, s.hasher) ∧ load s1.heap s.hasher = some (blake3_hasher_reset h) ∧
        s1.heap.length = s.heap.length) ∧
    (∃ s1, Java_com_google_devtools_build_lib_hash_Blake3JNI_blake3_1hasher_1init s =
        some (s1, s.hasher) ∧ load s1.heap s.hasher = some (blake3_hasher_reset h) ∧
        s1.heap.length = s.heap.length) ∧
    (∀ (off : Int) (n : Nat) (r : List Byte), region s s.input = some r →
      n ≤ r.length → n < 2 ^ 31 →
      ∃ s1, Java_com_google_devtools_build_lib_hash_Blake3JNI_blake3_1hasher_1init_1and_1flush s
          off (n : Int) = some (s1, s.hasher) ∧
        load s1.heap s.hasher = some (blake3_hasher_update (blake3_hasher_reset h) (r.take n)) ∧
        s1.heap.length = s.heap.length) ∧
    (∀ (n L : Nat) (r out0 : List Byte), region s s.input = some r →
      n ≤ r.length → n < 2 ^ 31 → region s s.output = some out0 →
      L ≤ out0.length → L < 2 ^ 31 →
      ∃ s1,
        Java_com_google_devtools_build_lib_hash_Blake3JNI_blake3_1hasher_1init_1and_1flush_1and_1finalize
          lib s (n : Int) (L : Int) = some (s1, s.hasher) ∧
        load s1.heap s.hasher = some (blake3_hasher_update (blake3_hasher_reset h) (r.take n)) ∧
        s1.heap.length = s.heap.length) := by
  have hne := load_ne_zero hl
  obtain ⟨s1, e1, l1, k1, i1, o1, d1⟩ :=
    init_or_reset_spec s (blake3_hasher_reset h) (Or.inr ⟨h, hl, rfl⟩)
  have k1 : s1.hasher = s.hasher := by rw [k1]; exact if_neg hne
  have n1 : s1.heap.length = s.heap.length := ((init_or_reset_hasher e1).2 hne).2
  rw [k1] at l1
  refine ⟨⟨s1, ?_, l1, n1⟩, ⟨s1, ?_, l1, n1⟩, ?_, ?_⟩
  · have e1a := e1
    simp only [init_or_reset, hne, if_false] at e1a
    simp only [Java_com_google_devtools_build_lib_hash_Blake3JNI_allocate_1hasher, hne,
      if_false, e1a, Option.map_some', k1]
  · simp only [Java_com_google_devtools_build_lib_hash_Blake3JNI_blake3_1hasher_1init, e1,
      Option.map_some', k1]
  · intro off n r hr hn hn31
    have hsz : to_size_t (n : Int) = n := to_size_t_natCast _ (by omega)
    have hreg : region s1 s1.input = some r := by
      rw [i1, region_congr d1]
      exact hr
    obtain ⟨s2, e2, l2, p2, _, _, _⟩ :=
      call_update_spec (s := s1) (p := s.hasher) (m := region s1 s1.input) (n := n) l1
        (by rw [hreg]; exact read_bytes_take hn)
    refine ⟨s2, ?_, l2, (call_update_heap_length e2).trans n1⟩
    simp only [Java_com_google_devtools_build_lib_hash_Blake3JNI_blake3_1hasher_1init_1and_1flush,
      e1, Option.some_bind, hsz, k1, e2, Option.map_some', p2]
  · intro n L r out0 hr hn hn31 hout hL hL31
    have hsz : to_size_t (n : Int) = n := to_size_t_natCast _ (by omega)
    have hszL : to_size_t (L : Int) = L := to_size_t_natCast _ (by omega)
    have hreg : region s1 s1.input = some r := by
      rw [i1, region_congr d1]
      exact hr
    have hupd : ∃ s2, (if (n : Int) > 0 then
          call_update s1 s.hasher (region s1 s1.input) n
        else some s1) = some s2 ∧
        load s2.heap s.hasher = some (blake3_hasher_update (blake3_hasher_reset h) (r.take n)) ∧
        s2.hasher = s.hasher ∧ s2.output = s.output ∧ s2.direct = s.direct ∧
        s2.heap.length = s.heap.length := by
      by_cases hpos : (n : Int) > 0
      · obtain ⟨s2, e2, l2, p2, _, o2, d2⟩ :=
          call_update_spec (s := s1) (p := s.hasher) (m := region s1 s1.input) (n := n) l1
            (by rw [hreg]; exact read_bytes_take hn)
        refine ⟨s2, ?_, l2, p2.trans k1, o2.trans o1, d2.trans d1,
          (call_update_heap_length e2).trans n1⟩
        simp only [hpos, if_true, e2]
      · have hz : n = 0 := by omega
        refine ⟨s1, ?_, ?_, k1, o1, d1, n1⟩
        · simp only [hpos, if_false]
        · rw [l1, hz]; simp [blake3_hasher_update]
    obtain ⟨s2, e2, l2, p2, o2, d2, n2⟩ := hupd
    obtain ⟨s3, e3, hp3, p3, _, _, _, _, _⟩ :=
      call_finalize_spec lib (s := s2) (p := s.hasher) (n := L) l2
        (by rw [o2, region_congr d2]; exact hout) hL
    refine ⟨s3, ?_, ?_, ?_⟩
    · simp only [Java_com_google_devtools_build_lib_hash_Blake3JNI_blake3_1hasher_1init_1and_1flush_1and_1finalize,
        e1, Option.some_bind, hsz, hszL, k1, e2, p2, e3, Option.map_some', p3]
    · rw [hp3]; exact l2
    · rw [hp3]; exact n2

end blaze_jni
